import Mathlib

/-!
Verification of the balance-computation and debt-simplification core of the
expense-tracker backend (`src/backend/src/controllers/statsController.ts`).

Amounts are modelled as exact rationals (`ℚ`): the source computes in JS
numbers over decimal database sums with `toFixed(2)`-style rounding, and the
claims under scrutiny concern the decimal/algorithmic behaviour, not binary
floating point.  `parseFloat(x.toFixed(2))` is modelled by `round2`
(rounding to the nearest hundredth, ties upward).
-/

namespace ExpenseStats

/-- Floor of a rational, written so it evaluates by kernel reduction
(`Rat.floor_def` shows it coincides with `Int.floor`). -/
def qfloor (q : ℚ) : ℤ := q.num / q.den

/-- Models `parseFloat(x.toFixed(2))`: rounds to the nearest multiple of
0.01. -/
def round2 (q : ℚ) : ℚ := (qfloor (q * 100 + 1 / 2) : ℚ) / 100

/-- One element of the balance list fed to the debt simplifier
(`getBalances` output fields actually read by `getPaymentSuggestions`). -/
structure BalanceEntry where
  id : Nat
  firstName : String
  lastName : String
  balance : ℚ
deriving DecidableEq

/-- One payment suggestion pushed by `getPaymentSuggestions`
(`from`/`to` flattened to id and display name). -/
structure Suggestion where
  fromId : Nat
  fromName : String
  toId : Nat
  toName : String
  amount : ℚ
deriving DecidableEq

/-- Display name built in the suggestion objects:
`firstName + " " + lastName`. -/
def fullName (e : BalanceEntry) : String := e.firstName ++ " " ++ e.lastName

/-- Insertion step of a stable sort: `e` is placed after every element that
strictly precedes it and before the first element that does not, so elements
the comparator ties are kept in input order. -/
def stableInsert (before : BalanceEntry → BalanceEntry → Bool) (e : BalanceEntry) :
    List BalanceEntry → List BalanceEntry
  | [] => [e]
  | x :: xs => if before x e then x :: stableInsert before e xs else e :: x :: xs

/-- Stable sort with respect to the strict precedence test `before`.  This
models `Array.prototype.sort`, which ECMAScript requires to be a stable sort
of the order induced by the comparator; a stable sort of a strict weak order
is unique, so this agrees with the source for the comparators below. -/
def stableSortBy (before : BalanceEntry → BalanceEntry → Bool)
    (l : List BalanceEntry) : List BalanceEntry :=
  l.foldr (stableInsert before) []

/-- Comparator `(a, b) => b.balance - a.balance` of the creditor sort:
`a` strictly precedes `b` when `a.balance > b.balance` (descending). -/
def creditorBefore (a b : BalanceEntry) : Bool := decide (b.balance < a.balance)

/-- Comparator `(a, b) => a.balance - b.balance` of the debtor sort:
`a` strictly precedes `b` when `a.balance < b.balance` (most negative
first). -/
def debtorBefore (a b : BalanceEntry) : Bool := decide (a.balance < b.balance)

/-- Creditor list of `getPaymentSuggestions`: positive balances, sorted
descending by balance. -/
def sortCreditors (l : List BalanceEntry) : List BalanceEntry :=
  stableSortBy creditorBefore l

/-- Debtor list of `getPaymentSuggestions`: negative balances, sorted
ascending by balance. -/
def sortDebtors (l : List BalanceEntry) : List BalanceEntry :=
  stableSortBy debtorBefore l

/-- Mutable state of the two-pointer loop of `getPaymentSuggestions`:
working creditor/debtor arrays, the two indices, and the suggestions
accumulated so far. -/
structure SimplifyState where
  creditors : List BalanceEntry
  debtors : List BalanceEntry
  i : Nat
  j : Nat
  out : List Suggestion
deriving DecidableEq

/-- One iteration of the `while (i < creditors.length && j < debtors.length)`
body (source lines 233-265): round the two current balances, transfer the
minimum, emit a suggestion when the transfer is positive, mutate the two
working balances, then advance each pointer whose (updated) balance is
within 0.01 of zero. -/
def simplifyStep (s : SimplifyState) : SimplifyState :=
  match s.creditors[s.i]?, s.debtors[s.j]? with
  | some creditor, some debtor =>
      let creditorAmount := round2 creditor.balance
      let debtorAmount := round2 |debtor.balance|
      let paymentAmount := min creditorAmount debtorAmount
      let st1 :=
        if 0 < paymentAmount then
          { s with
            creditors := s.creditors.set s.i
              { creditor with balance := creditor.balance - paymentAmount },
            debtors := s.debtors.set s.j
              { debtor with balance := debtor.balance + paymentAmount },
            out := s.out ++ [{ fromId := debtor.id, fromName := fullName debtor,
                               toId := creditor.id, toName := fullName creditor,
                               amount := paymentAmount }] }
        else s
      let cBal : ℚ := match st1.creditors[s.i]? with | some e => e.balance | none => 0
      let dBal : ℚ := match st1.debtors[s.j]? with | some e => e.balance | none => 0
      { st1 with
        i := if |cBal| < 1 / 100 then s.i + 1 else s.i,
        j := if |dBal| < 1 / 100 then s.j + 1 else s.j }
  | _, _ => s

/-- Fuelled unfolding of the two-pointer `while` loop.  Theorem
`runSimplify_done` shows that `creditors.length + debtors.length` fuel
always drives the loop condition to false, so with that much fuel this is
exactly the source's unbounded loop. -/
def runSimplify : Nat → SimplifyState → SimplifyState
  | 0, s => s
  | fuel + 1, s =>
      if s.i < s.creditors.length ∧ s.j < s.debtors.length then
        runSimplify fuel (simplifyStep s)
      else s

/-- Initial loop state of `getPaymentSuggestions`: partition the balance
list into creditors (balance > 0) and debtors (balance < 0) and sort each
side (source lines 221-232). -/
def initSimplify (balances : List BalanceEntry) : SimplifyState :=
  { creditors := sortCreditors (balances.filter (fun b => 0 < b.balance)),
    debtors := sortDebtors (balances.filter (fun b => b.balance < 0)),
    i := 0,
    j := 0,
    out := [] }

/-- Whether the loop condition of the two-pointer scan has failed. -/
def loopDone (s : SimplifyState) : Prop :=
  s.creditors.length ≤ s.i ∨ s.debtors.length ≤ s.j

/-- Full run of the debt-simplification loop on a balance list; the
resulting state also records the final values of the working (mutated)
creditor and debtor arrays. -/
def simplifyRun (balances : List BalanceEntry) : SimplifyState :=
  let s0 := initSimplify balances
  runSimplify (s0.creditors.length + s0.debtors.length) s0

/-- The observable output of `getPaymentSuggestions`: the suggestion list in
emission order. -/
def getPaymentSuggestionsCore (balances : List BalanceEntry) : List Suggestion :=
  (simplifyRun balances).out

/-- Sum of the amounts of a suggestion list. -/
def sumAmounts (l : List Suggestion) : ℚ := (l.map Suggestion.amount).sum

/-- Net effect of applying a suggestion list to user `uid`: each suggestion
adds `amount` to the payer's balance (reducing debt) and subtracts it from
the payee's balance (reducing credit). -/
def netAdjust (uid : Nat) (out : List Suggestion) : ℚ :=
  sumAmounts (out.filter (fun g => g.fromId == uid)) -
    sumAmounts (out.filter (fun g => g.toId == uid))

/-- Balance of entry `e` after applying every suggestion of `out` to the
original balances. -/
def resultingBalance (e : BalanceEntry) (out : List Suggestion) : ℚ :=
  e.balance + netAdjust e.id out

/-- Sum of the balances of a balance list. -/
def sumBalances (l : List BalanceEntry) : ℚ := (l.map BalanceEntry.balance).sum

/-- User attributes selected by the roster query of `getBalances` /
`getGroupBalances`. -/
structure UserRow where
  id : Nat
  firstName : String
  lastName : String
  email : String
  avatarUrl : String
deriving DecidableEq

/-- One element of the balance list built by `getBalances` /
`getGroupBalances` (user fields spread together with the four category sums
and the rounded balance). -/
structure UserBalanceRow where
  id : Nat
  firstName : String
  lastName : String
  email : String
  avatarUrl : String
  paidAmount : ℚ
  owedAmount : ℚ
  sentAmount : ℚ
  receivedAmount : ℚ
  balance : ℚ
deriving DecidableEq

/-- Models `parseFloat(rows.find(r => r.key === userId)?.value || 0)`: the
first row of the aggregation result matching the user id, defaulting to 0
when the user is absent from the mapping. -/
def lookupAmount (m : List (Nat × ℚ)) (uid : Nat) : ℚ :=
  match m.find? (fun p => p.1 == uid) with
  | some p => p.2
  | none => 0

/-- Per-user body of the `users.map` of `getBalances` (source lines
545-575): look each of the four sums up (absent users contribute 0),
compute `(paid + sent) - (received + owed)` exactly, and round the final
balance to 2 decimal places. -/
def computeUserBalance (paid owed sent received : List (Nat × ℚ))
    (user : UserRow) : UserBalanceRow :=
  let paidAmount := lookupAmount paid user.id
  let owedAmount := lookupAmount owed user.id
  let sentAmount := lookupAmount sent user.id
  let receivedAmount := lookupAmount received user.id
  let balance := (paidAmount + sentAmount) - (receivedAmount + owedAmount)
  { id := user.id,
    firstName := user.firstName,
    lastName := user.lastName,
    email := user.email,
    avatarUrl := user.avatarUrl,
    paidAmount := paidAmount,
    owedAmount := owedAmount,
    sentAmount := sentAmount,
    receivedAmount := receivedAmount,
    balance := round2 balance }

/-- Balance Aggregator core shared by `getGroupBalances` (lines 169-199) and
`getBalances` (lines 545-575): one output row per fetched user. -/
def getBalancesCore (users : List UserRow)
    (paid owed sent received : List (Nat × ℚ)) : List UserBalanceRow :=
  users.map (computeUserBalance paid owed sent received)

/-- Row of the `expenses` table (fields the stats queries read). -/
structure ExpenseRow where
  id : Nat
  groupId : Nat
  paidById : Nat
  amount : ℚ
deriving DecidableEq

/-- Row of the `expense_shares` table. -/
structure ExpenseShareRow where
  expenseId : Nat
  userId : Nat
  amount : ℚ
deriving DecidableEq

/-- Row of the `payments` table. -/
structure PaymentRow where
  groupId : Nat
  payerId : Nat
  receiverId : Nat
  amount : ℚ
deriving DecidableEq

/-- Row of the `group_members` table. -/
structure GroupMemberRow where
  groupId : Nat
  userId : Nat
  status : String
deriving DecidableEq

/-- Relational state read by the stats controller. -/
structure Database where
  users : List UserRow
  members : List GroupMemberRow
  expenses : List ExpenseRow
  shares : List ExpenseShareRow
  payments : List PaymentRow
deriving DecidableEq

/-- SQL `GROUP BY key` with `sum(amount)`: one pair per distinct key (in
first-occurrence order) with the sum of the amounts of the matching rows. -/
def groupSum {α : Type} (key : α → Nat) (amount : α → ℚ) (rows : List α) :
    List (Nat × ℚ) :=
  ((rows.map key).dedup).map
    (fun k => (k, ((rows.filter (fun r => key r == k)).map amount).sum))

/-- Models the `paidExpenses` query: expenses of the group summed by
`paidById`. -/
def fetchPaidExpenses (db : Database) (gid : Nat) : List (Nat × ℚ) :=
  groupSum ExpenseRow.paidById ExpenseRow.amount
    (db.expenses.filter (fun e => e.groupId == gid))

/-- Whether an expense share belongs to an expense of the group (the
`include` of the `owedShares` query). -/
def shareInGroup (db : Database) (gid : Nat) (s : ExpenseShareRow) : Bool :=
  db.expenses.any (fun e => e.id == s.expenseId && e.groupId == gid)

/-- Models the `owedShares` query: shares of the group's expenses summed by
`userId`. -/
def fetchOwedShares (db : Database) (gid : Nat) : List (Nat × ℚ) :=
  groupSum ExpenseShareRow.userId ExpenseShareRow.amount
    (db.shares.filter (shareInGroup db gid))

/-- Models the `paymentsSent` query: payments of the group summed by
`payerId`. -/
def fetchPaymentsSent (db : Database) (gid : Nat) : List (Nat × ℚ) :=
  groupSum PaymentRow.payerId PaymentRow.amount
    (db.payments.filter (fun p => p.groupId == gid))

/-- Models the `paymentsReceived` query: payments of the group summed by
`receiverId`. -/
def fetchPaymentsReceived (db : Database) (gid : Nat) : List (Nat × ℚ) :=
  groupSum PaymentRow.receiverId PaymentRow.amount
    (db.payments.filter (fun p => p.groupId == gid))

/-- Models the `users` query of `getBalances` / `getGroupBalances` (source
lines 147-166 and 517-542): `User.findAll` including `ExpenseShare` with a
nested include of `Expense` restricted by `where: groupId`.  A Sequelize
include carrying a `where` defaults to `required: true`, and the joins are
emitted linearly, so the generated SQL keeps exactly the users having at
least one expense share on an expense of the group (then `GROUP BY User.id`
collapses duplicates; `db.users` lists each user once). -/
def fetchUsersForGroup (db : Database) (gid : Nat) : List UserRow :=
  db.users.filter
    (fun u => db.shares.any
      (fun s => s.userId == u.id && shareInGroup db gid s))

/-- The `getBalances` helper (source lines 440-576) in the error-free case:
run the five queries against the database state and fold them through the
aggregator core. -/
def getBalancesFromDb (db : Database) (gid : Nat) : List UserBalanceRow :=
  getBalancesCore (fetchUsersForGroup db gid)
    (fetchPaidExpenses db gid) (fetchOwedShares db gid)
    (fetchPaymentsSent db gid) (fetchPaymentsReceived db gid)

/-- Whether a user is an active member of the group (the roster the spec
says balances must cover; `getGroupBalances` never reads this table). -/
def isActiveMember (db : Database) (gid uid : Nat) : Bool :=
  db.members.any (fun m => m.groupId == gid && m.userId == uid && m.status == "active")

/-- Results of the five queries `getBalances` issues, each of which may have
failed. -/
structure FetchResults where
  paidRes : Except String (List (Nat × ℚ))
  owedRes : Except String (List (Nat × ℚ))
  sentRes : Except String (List (Nat × ℚ))
  receivedRes : Except String (List (Nat × ℚ))
  usersRes : Except String (List UserRow)

/-- Models each `try/catch` of `getBalances` (source lines 443-542): a
failed query is replaced by the empty row list. -/
def orEmpty {α : Type} : Except String (List α) → List α
  | Except.ok l => l
  | Except.error _ => []

/-- The `getBalances` helper including its error handling: every one of the
five queries is individually wrapped in `try/catch`, and a failure is
silently replaced by `[]` before the aggregation map runs. -/
def getBalancesWithFallback (f : FetchResults) : List UserBalanceRow :=
  getBalancesCore (orEmpty f.usersRes)
    (orEmpty f.paidRes) (orEmpty f.owedRes)
    (orEmpty f.sentRes) (orEmpty f.receivedRes)

/-- Modelled from the spec: the creditor sort as the specification words it,
ordering by balance descending and breaking ties among equal balances by
the stable secondary key user id.  Used only to compare the specified sort
with the implemented `sortCreditors`. -/
def specSortCreditors (l : List BalanceEntry) : List BalanceEntry :=
  stableSortBy
    (fun a b => decide (b.balance < a.balance) ||
      (decide (a.balance = b.balance) && decide (a.id < b.id))) l

/-- Transfer amount of one loop iteration: the minimum of the two rounded
current balances. -/
def stepPayment (c d : BalanceEntry) : ℚ := min (round2 c.balance) (round2 |d.balance|)

/-- Sign invariant of the two-pointer loop: every creditor at or beyond the
creditor pointer still has a positive balance, every debtor at or beyond the
debtor pointer a negative one. -/
def SignInv (s : SimplifyState) : Prop :=
  (∀ k e, s.creditors[k]? = some e → s.i ≤ k → 0 < e.balance) ∧
  (∀ k e, s.debtors[k]? = some e → s.j ≤ k → e.balance < 0)

/-- Settlement invariant: every entry a pointer has moved past has been
driven to within 0.01 of zero. -/
def SettledInv (s : SimplifyState) : Prop :=
  (∀ k e, s.creditors[k]? = some e → k < s.i → |e.balance| < 1 / 100) ∧
  (∀ k e, s.debtors[k]? = some e → k < s.j → |e.balance| < 1 / 100)

/-- Correspondence invariant relating the working arrays to the initial
sorted arrays `cs0`/`ds0`: each working entry is its initial entry with the
net effect of the suggestions emitted so far applied, and every emitted
suggestion has a positive amount, a debtor as payer and a creditor as
payee. -/
def CorrInv (cs0 ds0 : List BalanceEntry) (s : SimplifyState) : Prop :=
  s.creditors.length = cs0.length ∧
  s.debtors.length = ds0.length ∧
  (∀ (k : Nat) (e0 : BalanceEntry), cs0[k]? = some e0 →
    s.creditors[k]? = some { e0 with balance := e0.balance + netAdjust e0.id s.out }) ∧
  (∀ (k : Nat) (e0 : BalanceEntry), ds0[k]? = some e0 →
    s.debtors[k]? = some { e0 with balance := e0.balance + netAdjust e0.id s.out }) ∧
  (∀ g ∈ s.out, 0 < g.amount ∧ (∃ a ∈ ds0, g.fromId = a.id) ∧ (∃ b ∈ cs0, g.toId = b.id))

/-- Conservation invariant: each transfer moves value between the two
working arrays, so their combined balance total never changes. -/
def ConsInv (t : ℚ) (s : SimplifyState) : Prop :=
  sumBalances s.creditors + sumBalances s.debtors = t

theorem qfloor_eq (q : ℚ) : qfloor q = ⌊q⌋ := Rat.floor_def.symm

theorem round2_eq (q : ℚ) : round2 q = ((round (q * 100) : ℤ) : ℚ) / 100 := by
  rw [round2, qfloor_eq, round_eq]

theorem abs_round2_sub (q : ℚ) : |round2 q - q| ≤ 1 / 200 := by
  rw [round2_eq]
  have h : |(((round (q * 100) : ℤ) : ℚ)) - q * 100| ≤ 1 / 2 := by
    rw [abs_sub_comm]; exact abs_sub_round (q * 100)
  have h2 : ((round (q * 100) : ℤ) : ℚ) / 100 - q =
      (((round (q * 100) : ℤ) : ℚ) - q * 100) / 100 := by ring
  rw [h2, abs_div, abs_of_pos (show (0 : ℚ) < 100 by norm_num)]
  calc |((round (q * 100) : ℤ) : ℚ) - q * 100| / 100 ≤ (1 / 2) / 100 := by gcongr
    _ = 1 / 200 := by norm_num

theorem round2_le (q : ℚ) : round2 q ≤ q + 1 / 200 := by
  have h := abs_round2_sub q
  rw [abs_le] at h
  linarith [h.2]

theorem le_round2 (q : ℚ) : q - 1 / 200 ≤ round2 q := by
  have h := abs_round2_sub q
  rw [abs_le] at h
  linarith [h.1]

theorem round2_nonneg (q : ℚ) (h : 0 ≤ q) : 0 ≤ round2 q := by
  rw [round2_eq, round_eq]
  have h1 : (0 : ℤ) ≤ ⌊q * 100 + 1 / 2⌋ := Int.floor_nonneg.mpr (by positivity)
  positivity

theorem abs_small_of_round2_eq_zero (q : ℚ) (h : round2 q = 0) : |q| ≤ 1 / 200 := by
  have h2 := abs_round2_sub q
  rw [h] at h2
  rw [abs_sub_comm, sub_zero] at h2
  exact h2

theorem mem_of_getElemOpt {α : Type} {l : List α} {i : Nat} {a : α}
    (h : l[i]? = some a) : a ∈ l := by
  rw [List.getElem?_eq_some] at h
  obtain ⟨hi, rfl⟩ := h
  exact List.getElem_mem hi

theorem id_ne_of_pos_ne {l : List BalanceEntry}
    (h : (l.map BalanceEntry.id).Nodup) {k1 k2 : Nat} {a b : BalanceEntry}
    (h1 : l[k1]? = some a) (h2 : l[k2]? = some b) (hne : k1 ≠ k2) :
    a.id ≠ b.id := by
  rw [List.getElem?_eq_some] at h1 h2
  obtain ⟨hk1, rfl⟩ := h1
  obtain ⟨hk2, rfl⟩ := h2
  intro heq
  apply hne
  have hm1 : k1 < (l.map BalanceEntry.id).length := by simpa using hk1
  have hm2 : k2 < (l.map BalanceEntry.id).length := by simpa using hk2
  have hv : (l.map BalanceEntry.id)[k1] = (l.map BalanceEntry.id)[k2] := by
    simpa using heq
  exact (List.Nodup.getElem_inj_iff h).mp hv

theorem eq_of_mem_of_id_eq {l : List BalanceEntry}
    (h : (l.map BalanceEntry.id).Nodup) {a b : BalanceEntry}
    (ha : a ∈ l) (hb : b ∈ l) (hid : a.id = b.id) : a = b :=
  List.inj_on_of_nodup_map h ha hb hid

theorem stableInsert_perm (before : BalanceEntry → BalanceEntry → Bool)
    (e : BalanceEntry) (l : List BalanceEntry) :
    (stableInsert before e l).Perm (e :: l) := by
  induction l with
  | nil => simp [stableInsert]
  | cons x xs ih =>
      by_cases h : before x e = true
      · rw [stableInsert, if_pos h]
        exact (ih.cons x).trans (List.Perm.swap e x xs)
      · rw [stableInsert, if_neg h]

theorem stableSortBy_perm (before : BalanceEntry → BalanceEntry → Bool)
    (l : List BalanceEntry) : (stableSortBy before l).Perm l := by
  induction l with
  | nil => simp [stableSortBy]
  | cons x xs ih =>
      have : stableSortBy before (x :: xs) = stableInsert before x (stableSortBy before xs) := rfl
      rw [this]
      exact (stableInsert_perm before x (stableSortBy before xs)).trans (ih.cons x)

theorem sortCreditors_perm (l : List BalanceEntry) : (sortCreditors l).Perm l :=
  stableSortBy_perm creditorBefore l

theorem sortDebtors_perm (l : List BalanceEntry) : (sortDebtors l).Perm l :=
  stableSortBy_perm debtorBefore l

theorem sum_map_set {α : Type} (f : α → ℚ) (l : List α) (i : Nat) (a b : α)
    (h : l[i]? = some a) :
    ((l.set i b).map f).sum = (l.map f).sum - f a + f b := by
  induction l generalizing i with
  | nil => simp at h
  | cons x xs ih =>
      cases i with
      | zero =>
          simp only [List.getElem?_cons_zero, Option.some_inj] at h
          subst h
          simp [List.set]
          ring
      | succ n =>
          simp only [List.getElem?_cons_succ] at h
          simp only [List.set, List.map_cons, List.sum_cons, ih n h]
          ring

theorem simplifyStep_pos (s : SimplifyState) (c d : BalanceEntry)
    (hc : s.creditors[s.i]? = some c) (hd : s.debtors[s.j]? = some d)
    (hp : 0 < stepPayment c d) :
    simplifyStep s =
      { creditors := s.creditors.set s.i { c with balance := c.balance - stepPayment c d },
        debtors := s.debtors.set s.j { d with balance := d.balance + stepPayment c d },
        i := if |c.balance - stepPayment c d| < 1 / 100 then s.i + 1 else s.i,
        j := if |d.balance + stepPayment c d| < 1 / 100 then s.j + 1 else s.j,
        out := s.out ++ [{ fromId := d.id, fromName := fullName d,
                           toId := c.id, toName := fullName c,
                           amount := stepPayment c d }] } := by
  have hi : s.i < s.creditors.length := (List.getElem?_eq_some.mp hc).1
  have hj : s.j < s.debtors.length := (List.getElem?_eq_some.mp hd).1
  rw [simplifyStep, hc, hd]
  simp only [stepPayment] at hp
  simp only [if_pos hp, List.getElem?_set_self hi, List.getElem?_set_self hj, stepPayment]

theorem simplifyStep_zero (s : SimplifyState) (c d : BalanceEntry)
    (hc : s.creditors[s.i]? = some c) (hd : s.debtors[s.j]? = some d)
    (hp : ¬ 0 < stepPayment c d) :
    simplifyStep s =
      { s with
        i := if |c.balance| < 1 / 100 then s.i + 1 else s.i,
        j := if |d.balance| < 1 / 100 then s.j + 1 else s.j } := by
  rw [simplifyStep, hc, hd]
  simp only [stepPayment] at hp
  simp only [if_neg hp, hc, hd]

theorem stepPayment_nonneg (c d : BalanceEntry) (hcpos : 0 ≤ c.balance) :
    0 ≤ stepPayment c d :=
  le_min (round2_nonneg _ hcpos) (round2_nonneg _ (abs_nonneg _))

theorem stepPayment_le_left (c d : BalanceEntry) :
    stepPayment c d ≤ c.balance + 1 / 200 :=
  (min_le_left _ _).trans (round2_le _)

theorem stepPayment_le_right (c d : BalanceEntry) :
    stepPayment c d ≤ |d.balance| + 1 / 200 :=
  (min_le_right _ _).trans (round2_le _)

theorem simplifyStep_lengths (s : SimplifyState) :
    (simplifyStep s).creditors.length = s.creditors.length ∧
      (simplifyStep s).debtors.length = s.debtors.length := by
  rw [simplifyStep]
  cases hc : s.creditors[s.i]? with
  | none => exact ⟨rfl, rfl⟩
  | some c =>
      cases hd : s.debtors[s.j]? with
      | none => exact ⟨rfl, rfl⟩
      | some d =>
          by_cases hp : 0 < min (round2 c.balance) (round2 |d.balance|)
          · simp only [if_pos hp, List.length_set]
            exact ⟨trivial, trivial⟩
          · simp only [if_neg hp]
            exact ⟨trivial, trivial⟩

theorem simplifyStep_pointers (s : SimplifyState) :
    s.i ≤ (simplifyStep s).i ∧ s.j ≤ (simplifyStep s).j := by
  rw [simplifyStep]
  cases hc : s.creditors[s.i]? with
  | none => exact ⟨le_refl _, le_refl _⟩
  | some c =>
      cases hd : s.debtors[s.j]? with
      | none => exact ⟨le_refl _, le_refl _⟩
      | some d =>
          constructor
          · by_cases hp : 0 < min (round2 c.balance) (round2 |d.balance|) <;>
              simp only [if_pos, if_neg, hp, ite_true, ite_false] <;> split <;> omega
          · by_cases hp : 0 < min (round2 c.balance) (round2 |d.balance|) <;>
              simp only [if_pos, if_neg, hp, ite_true, ite_false] <;> split <;> omega

theorem simplifyStep_sign (s : SimplifyState) (hsign : SignInv s)
    (hi : s.i < s.creditors.length) (hj : s.j < s.debtors.length) :
    SignInv (simplifyStep s) := by
  obtain ⟨c, hc⟩ : ∃ c, s.creditors[s.i]? = some c := ⟨_, List.getElem?_eq_getElem hi⟩
  obtain ⟨d, hd⟩ : ∃ d, s.debtors[s.j]? = some d := ⟨_, List.getElem?_eq_getElem hj⟩
  have hcpos : 0 < c.balance := hsign.1 _ _ hc le_rfl
  have hdneg : d.balance < 0 := hsign.2 _ _ hd le_rfl
  by_cases hp : 0 < stepPayment c d
  · rw [simplifyStep_pos s c d hc hd hp]
    constructor
    · intro k e hke hik
      simp only at hke hik
      by_cases hki : s.i = k
      · subst hki
        rw [List.getElem?_set_self hi, Option.some_inj] at hke
        subst hke
        simp only
        have hub := stepPayment_le_left c d
        have hA : ¬ |c.balance - stepPayment c d| < 1 / 100 := by
          intro hA
          rw [if_pos hA] at hik
          omega
        rcases abs_cases (c.balance - stepPayment c d) with ⟨he, _⟩ | ⟨he, hneg⟩
        · rw [he] at hA
          linarith [not_lt.mp hA]
        · rw [he] at hA
          linarith [not_lt.mp hA]
      · rw [List.getElem?_set_ne hki] at hke
        refine hsign.1 _ _ hke ?_
        split at hik <;> omega
    · intro k e hke hjk
      simp only at hke hjk
      by_cases hkj : s.j = k
      · subst hkj
        rw [List.getElem?_set_self hj, Option.some_inj] at hke
        subst hke
        simp only
        have hub : stepPayment c d ≤ -d.balance + 1 / 200 := by
          have := stepPayment_le_right c d
          rwa [abs_of_neg hdneg] at this
        have hB : ¬ |d.balance + stepPayment c d| < 1 / 100 := by
          intro hB
          rw [if_pos hB] at hjk
          omega
        rcases abs_cases (d.balance + stepPayment c d) with ⟨he, _⟩ | ⟨he, _⟩
        · rw [he] at hB
          linarith [not_lt.mp hB]
        · rw [he] at hB
          linarith [not_lt.mp hB]
      · rw [List.getElem?_set_ne hkj] at hke
        refine hsign.2 _ _ hke ?_
        split at hjk <;> omega
  · rw [simplifyStep_zero s c d hc hd hp]
    constructor
    · intro k e hke hik
      simp only at hke hik
      refine hsign.1 _ _ hke ?_
      split at hik <;> omega
    · intro k e hke hjk
      simp only at hke hjk
      refine hsign.2 _ _ hke ?_
      split at hjk <;> omega

theorem simplifyStep_progress (s : SimplifyState) (hsign : SignInv s)
    (hi : s.i < s.creditors.length) (hj : s.j < s.debtors.length) :
    s.i + s.j + 1 ≤ (simplifyStep s).i + (simplifyStep s).j := by
  obtain ⟨c, hc⟩ : ∃ c, s.creditors[s.i]? = some c := ⟨_, List.getElem?_eq_getElem hi⟩
  obtain ⟨d, hd⟩ : ∃ d, s.debtors[s.j]? = some d := ⟨_, List.getElem?_eq_getElem hj⟩
  have hcpos : 0 < c.balance := hsign.1 _ _ hc le_rfl
  have hdneg : d.balance < 0 := hsign.2 _ _ hd le_rfl
  by_cases hp : 0 < stepPayment c d
  · rw [simplifyStep_pos s c d hc hd hp]
    simp only
    rcases min_choice (round2 c.balance) (round2 |d.balance|) with hmin | hmin
    · have hA : |c.balance - stepPayment c d| < 1 / 100 := by
        rw [stepPayment, hmin, abs_sub_comm]
        exact lt_of_le_of_lt (abs_round2_sub _) (by norm_num)
      rw [if_pos hA]
      split <;> omega
    · have hB : |d.balance + stepPayment c d| < 1 / 100 := by
        have he : d.balance + stepPayment c d = round2 |d.balance| - |d.balance| := by
          rw [stepPayment, hmin, abs_of_neg hdneg]
          ring
        rw [he]
        exact lt_of_le_of_lt (abs_round2_sub _) (by norm_num)
      rw [if_pos hB]
      split <;> omega
  · rw [simplifyStep_zero s c d hc hd hp]
    simp only
    have h0 : stepPayment c d = 0 :=
      le_antisymm (not_lt.mp hp) (stepPayment_nonneg c d hcpos.le)
    rcases min_choice (round2 c.balance) (round2 |d.balance|) with hmin | hmin
    · have hc0 : round2 c.balance = 0 := by rw [← hmin, ← stepPayment, h0]
      have hA : |c.balance| < 1 / 100 :=
        lt_of_le_of_lt (abs_small_of_round2_eq_zero _ hc0) (by norm_num)
      rw [if_pos hA]
      split <;> omega
    · have hd0 : round2 |d.balance| = 0 := by rw [← hmin, ← stepPayment, h0]
      have hB : |d.balance| < 1 / 100 := by
        have := abs_small_of_round2_eq_zero _ hd0
        rw [abs_abs] at this
        exact lt_of_le_of_lt this (by norm_num)
      rw [if_pos hB]
      split <;> omega

theorem simplifyStep_settled (s : SimplifyState) (hset : SettledInv s)
    (hi : s.i < s.creditors.length) (hj : s.j < s.debtors.length) :
    SettledInv (simplifyStep s) := by
  obtain ⟨c, hc⟩ : ∃ c, s.creditors[s.i]? = some c := ⟨_, List.getElem?_eq_getElem hi⟩
  obtain ⟨d, hd⟩ : ∃ d, s.debtors[s.j]? = some d := ⟨_, List.getElem?_eq_getElem hj⟩
  by_cases hp : 0 < stepPayment c d
  · rw [simplifyStep_pos s c d hc hd hp]
    constructor
    · intro k e hke hik
      simp only at hke hik
      by_cases hki : s.i = k
      · subst hki
        rw [List.getElem?_set_self hi, Option.some_inj] at hke
        subst hke
        by_cases hA : |c.balance - stepPayment c d| < 1 / 100
        · exact hA
        · rw [if_neg hA] at hik
          omega
      · rw [List.getElem?_set_ne hki] at hke
        refine hset.1 _ _ hke ?_
        split at hik <;> omega
    · intro k e hke hjk
      simp only at hke hjk
      by_cases hkj : s.j = k
      · subst hkj
        rw [List.getElem?_set_self hj, Option.some_inj] at hke
        subst hke
        by_cases hB : |d.balance + stepPayment c d| < 1 / 100
        · exact hB
        · rw [if_neg hB] at hjk
          omega
      · rw [List.getElem?_set_ne hkj] at hke
        refine hset.2 _ _ hke ?_
        split at hjk <;> omega
  · rw [simplifyStep_zero s c d hc hd hp]
    constructor
    · intro k e hke hik
      simp only at hke hik
      by_cases hki : s.i = k
      · subst hki
        rw [hc, Option.some_inj] at hke
        subst hke
        by_cases hA : |c.balance| < 1 / 100
        · exact hA
        · rw [if_neg hA] at hik
          omega
      · refine hset.1 _ _ hke ?_
        split at hik <;> omega
    · intro k e hke hjk
      simp only at hke hjk
      by_cases hkj : s.j = k
      · subst hkj
        rw [hd, Option.some_inj] at hke
        subst hke
        by_cases hB : |d.balance| < 1 / 100
        · exact hB
        · rw [if_neg hB] at hjk
          omega
      · refine hset.2 _ _ hke ?_
        split at hjk <;> omega

theorem simplifyStep_cons (t : ℚ) (s : SimplifyState) (hcons : ConsInv t s)
    (hi : s.i < s.creditors.length) (hj : s.j < s.debtors.length) :
    ConsInv t (simplifyStep s) := by
  obtain ⟨c, hc⟩ : ∃ c, s.creditors[s.i]? = some c := ⟨_, List.getElem?_eq_getElem hi⟩
  obtain ⟨d, hd⟩ : ∃ d, s.debtors[s.j]? = some d := ⟨_, List.getElem?_eq_getElem hj⟩
  by_cases hp : 0 < stepPayment c d
  · rw [simplifyStep_pos s c d hc hd hp]
    rw [ConsInv] at hcons ⊢
    simp only [sumBalances]
    rw [sum_map_set BalanceEntry.balance s.creditors s.i c _ hc,
      sum_map_set BalanceEntry.balance s.debtors s.j d _ hd]
    simp only [sumBalances] at hcons
    simp only
    linarith [hcons]
  · rw [simplifyStep_zero s c d hc hd hp]
    exact hcons

theorem runSimplify_inv {P : SimplifyState → Prop}
    (hstep : ∀ s, P s → s.i < s.creditors.length → s.j < s.debtors.length →
      P (simplifyStep s)) :
    ∀ (fuel : Nat) (s : SimplifyState), P s → P (runSimplify fuel s) := by
  intro fuel
  induction fuel with
  | zero => intro s hs; exact hs
  | succ n ih =>
      intro s hs
      rw [runSimplify]
      split
      · next h => exact ih _ (hstep s hs h.1 h.2)
      · exact hs

theorem runSimplify_of_done (fuel : Nat) (s : SimplifyState) (h : loopDone s) :
    runSimplify fuel s = s := by
  cases fuel with
  | zero => rfl
  | succ n =>
      rw [runSimplify, if_neg]
      rw [loopDone] at h
      intro hcond
      omega

theorem runSimplify_done : ∀ (fuel : Nat) (s : SimplifyState), SignInv s →
    s.creditors.length + s.debtors.length ≤ s.i + s.j + fuel →
    loopDone (runSimplify fuel s) := by
  intro fuel
  induction fuel with
  | zero =>
      intro s _ hb
      rw [runSimplify, loopDone]
      omega
  | succ n ih =>
      intro s hsign hb
      rw [runSimplify]
      split
      · next h =>
          refine ih _ (simplifyStep_sign s hsign h.1 h.2) ?_
          have hlen := simplifyStep_lengths s
          have hprog := simplifyStep_progress s hsign h.1 h.2
          omega
      · next h =>
          rw [loopDone]
          omega

theorem runSimplify_add (a b : Nat) :
    ∀ s : SimplifyState, runSimplify (a + b) s = runSimplify b (runSimplify a s) := by
  induction a with
  | zero => intro s; rw [Nat.zero_add]; rfl
  | succ n ih =>
      intro s
      have hab : n + 1 + b = (n + b) + 1 := by omega
      rw [hab, runSimplify]
      by_cases hcond : s.i < s.creditors.length ∧ s.j < s.debtors.length
      · rw [if_pos hcond, ih (simplifyStep s)]
        have : runSimplify (n + 1) s = runSimplify n (simplifyStep s) := by
          rw [runSimplify, if_pos hcond]
        rw [this]
      · rw [if_neg hcond]
        have hdone : loopDone s := by rw [loopDone]; omega
        rw [runSimplify_of_done (n + 1) s hdone, runSimplify_of_done b s hdone]

theorem netAdjust_nil (uid : Nat) : netAdjust uid [] = 0 := by
  simp [netAdjust, sumAmounts]

theorem sumAmounts_append (l1 l2 : List Suggestion) :
    sumAmounts (l1 ++ l2) = sumAmounts l1 + sumAmounts l2 := by
  simp [sumAmounts]

theorem netAdjust_append_single (uid : Nat) (out : List Suggestion) (g : Suggestion) :
    netAdjust uid (out ++ [g]) =
      netAdjust uid out + (if g.fromId = uid then g.amount else 0) -
        (if g.toId = uid then g.amount else 0) := by
  rw [netAdjust, netAdjust, List.filter_append, List.filter_append,
    sumAmounts_append, sumAmounts_append]
  have hf : sumAmounts (List.filter (fun g2 => g2.fromId == uid) [g]) =
      if g.fromId = uid then g.amount else 0 := by
    by_cases h : g.fromId = uid
    · have hb : (g.fromId == uid) = true := by simpa using h
      simp [List.filter, hb, h, sumAmounts]
    · have hb : (g.fromId == uid) = false := by simpa using h
      simp [List.filter, hb, h, sumAmounts]
  have ht : sumAmounts (List.filter (fun g2 => g2.toId == uid) [g]) =
      if g.toId = uid then g.amount else 0 := by
    by_cases h : g.toId = uid
    · have hb : (g.toId == uid) = true := by simpa using h
      simp [List.filter, hb, h, sumAmounts]
    · have hb : (g.toId == uid) = false := by simpa using h
      simp [List.filter, hb, h, sumAmounts]
  rw [hf, ht]
  ring

theorem netAdjust_irrelevant (uid : Nat) (out : List Suggestion)
    (h : ∀ g ∈ out, g.fromId ≠ uid ∧ g.toId ≠ uid) : netAdjust uid out = 0 := by
  rw [netAdjust]
  have hf : List.filter (fun g => g.fromId == uid) out = [] := by
    rw [List.filter_eq_nil_iff]
    intro g hg
    simpa using (h g hg).1
  have ht : List.filter (fun g => g.toId == uid) out = [] := by
    rw [List.filter_eq_nil_iff]
    intro g hg
    simpa using (h g hg).2
  rw [hf, ht]
  simp [sumAmounts]

theorem simplifyStep_corr (cs0 ds0 : List BalanceEntry)
    (hnd : ((cs0 ++ ds0).map BalanceEntry.id).Nodup)
    (s : SimplifyState) (hcorr : CorrInv cs0 ds0 s)
    (hi : s.i < s.creditors.length) (hj : s.j < s.debtors.length) :
    CorrInv cs0 ds0 (simplifyStep s) := by
  obtain ⟨hlc, hld, hcpt, hdpt, hout⟩ := hcorr
  rw [List.map_append, List.nodup_append] at hnd
  obtain ⟨hndc, hndd, hdisj⟩ := hnd
  have hi0 : s.i < cs0.length := by omega
  have hj0 : s.j < ds0.length := by omega
  obtain ⟨c0, hc0⟩ : ∃ c0, cs0[s.i]? = some c0 := ⟨_, List.getElem?_eq_getElem hi0⟩
  obtain ⟨d0, hd0⟩ : ∃ d0, ds0[s.j]? = some d0 := ⟨_, List.getElem?_eq_getElem hj0⟩
  have hc := hcpt _ _ hc0
  have hd := hdpt _ _ hd0
  have hidne : d0.id ≠ c0.id := by
    intro he
    exact hdisj (List.mem_map_of_mem _ (mem_of_getElemOpt hc0))
      (he ▸ List.mem_map_of_mem _ (mem_of_getElemOpt hd0))
  by_cases hp : 0 < stepPayment { c0 with balance := c0.balance + netAdjust c0.id s.out }
      { d0 with balance := d0.balance + netAdjust d0.id s.out }
  · rw [simplifyStep_pos s _ _ hc hd hp]
    set p := stepPayment { c0 with balance := c0.balance + netAdjust c0.id s.out }
      { d0 with balance := d0.balance + netAdjust d0.id s.out } with hpdef
    refine ⟨by simpa using hlc, by simpa using hld, ?_, ?_, ?_⟩
    · intro k e0 hke0
      simp only
      by_cases hki : s.i = k
      · subst hki
        rw [hc0, Option.some_inj] at hke0
        subst hke0
        rw [List.getElem?_set_self hi, Option.some_inj]
        rw [netAdjust_append_single]
        simp only [if_neg hidne, eq_self_iff_true, if_true]
        have : c0.balance + netAdjust c0.id s.out - p =
            c0.balance + (netAdjust c0.id s.out + 0 - p) := by ring
        rw [this]
      · rw [List.getElem?_set_ne hki]
        rw [hcpt _ _ hke0, Option.some_inj]
        have hne1 : d0.id ≠ e0.id := by
          intro he
          exact hdisj (List.mem_map_of_mem _ (mem_of_getElemOpt hke0))
            (he ▸ List.mem_map_of_mem _ (mem_of_getElemOpt hd0))
        have hne2 : c0.id ≠ e0.id := id_ne_of_pos_ne hndc hc0 hke0 hki
        rw [netAdjust_append_single]
        simp only [if_neg hne1, if_neg hne2]
        rw [add_zero, sub_zero]
    · intro k e0 hke0
      simp only
      by_cases hkj : s.j = k
      · subst hkj
        rw [hd0, Option.some_inj] at hke0
        subst hke0
        rw [List.getElem?_set_self hj, Option.some_inj]
        rw [netAdjust_append_single]
        simp only [eq_self_iff_true, if_true, if_neg (Ne.symm hidne)]
        have : d0.balance + netAdjust d0.id s.out + p =
            d0.balance + (netAdjust d0.id s.out + p - 0) := by ring
        rw [this]
      · rw [List.getElem?_set_ne hkj]
        rw [hdpt _ _ hke0, Option.some_inj]
        have hne1 : d0.id ≠ e0.id := id_ne_of_pos_ne hndd hd0 hke0 hkj
        have hne2 : c0.id ≠ e0.id := by
          intro he
          exact hdisj (he ▸ List.mem_map_of_mem _ (mem_of_getElemOpt hc0))
            (List.mem_map_of_mem _ (mem_of_getElemOpt hke0))
        rw [netAdjust_append_single]
        simp only [if_neg hne1, if_neg hne2]
        rw [add_zero, sub_zero]
    · intro g hg
      simp only at hg
      rw [List.mem_append] at hg
      rcases hg with hg | hg
      · exact hout g hg
      · rw [List.mem_singleton] at hg
        subst hg
        exact ⟨hp, ⟨d0, mem_of_getElemOpt hd0, rfl⟩, ⟨c0, mem_of_getElemOpt hc0, rfl⟩⟩
  · rw [simplifyStep_zero s _ _ hc hd hp]
    exact ⟨hlc, hld, hcpt, hdpt, hout⟩

theorem sumBalances_cons (x : BalanceEntry) (l : List BalanceEntry) :
    sumBalances (x :: l) = x.balance + sumBalances l := by
  simp [sumBalances]

theorem sumBalances_append (l1 l2 : List BalanceEntry) :
    sumBalances (l1 ++ l2) = sumBalances l1 + sumBalances l2 := by
  simp [sumBalances]

theorem sumBalances_perm {l1 l2 : List BalanceEntry} (h : l1.Perm l2) :
    sumBalances l1 = sumBalances l2 :=
  (h.map BalanceEntry.balance).sum_eq

theorem mem_sortCreditors_pos {bs : List BalanceEntry} {e : BalanceEntry}
    (he : e ∈ sortCreditors (bs.filter (fun b => 0 < b.balance))) : 0 < e.balance := by
  have := (sortCreditors_perm _).mem_iff.mp he
  have := List.mem_filter.mp this
  simpa using this.2

theorem mem_sortDebtors_neg {bs : List BalanceEntry} {e : BalanceEntry}
    (he : e ∈ sortDebtors (bs.filter (fun b => b.balance < 0))) : e.balance < 0 := by
  have := (sortDebtors_perm _).mem_iff.mp he
  have := List.mem_filter.mp this
  simpa using this.2

theorem initSimplify_sign (bs : List BalanceEntry) : SignInv (initSimplify bs) := by
  constructor
  · intro k e hke _
    exact mem_sortCreditors_pos (mem_of_getElemOpt hke)
  · intro k e hke _
    exact mem_sortDebtors_neg (mem_of_getElemOpt hke)

theorem initSimplify_settled (bs : List BalanceEntry) : SettledInv (initSimplify bs) := by
  constructor
  · intro k e _ hk
    simp only [initSimplify] at hk
    omega
  · intro k e _ hk
    simp only [initSimplify] at hk
    omega

theorem sumBalances_filter_split (bs : List BalanceEntry) :
    sumBalances (bs.filter (fun b => 0 < b.balance)) +
      sumBalances (bs.filter (fun b => b.balance < 0)) = sumBalances bs := by
  induction bs with
  | nil => simp [sumBalances]
  | cons x xs ih =>
      rw [sumBalances_cons, List.filter_cons, List.filter_cons]
      rcases lt_trichotomy x.balance 0 with hx | hx | hx
      · have h1 : (decide (0 < x.balance)) = false := by
          simp only [decide_eq_false_iff_not, not_lt]
          linarith
        have h2 : (decide (x.balance < 0)) = true := by simpa using hx
        rw [h1, h2]
        simp only [if_neg Bool.false_ne_true, eq_self_iff_true, if_true]
        rw [sumBalances_cons]
        linarith [ih]
      · have h1 : (decide (0 < x.balance)) = false := by
          simp only [decide_eq_false_iff_not, not_lt]
          linarith
        have h2 : (decide (x.balance < 0)) = false := by
          simp only [decide_eq_false_iff_not, not_lt]
          linarith
        rw [h1, h2]
        simp only [if_neg Bool.false_ne_true]
        rw [hx] at *
        linarith [ih]
      · have h1 : (decide (0 < x.balance)) = true := by simpa using hx
        have h2 : (decide (x.balance < 0)) = false := by
          simp only [decide_eq_false_iff_not, not_lt]
          linarith
        rw [h1, h2]
        simp only [if_neg Bool.false_ne_true, eq_self_iff_true, if_true]
        rw [sumBalances_cons]
        linarith [ih]

theorem initSimplify_cons (bs : List BalanceEntry) :
    ConsInv (sumBalances bs) (initSimplify bs) := by
  rw [ConsInv]
  simp only [initSimplify]
  rw [sumBalances_perm (sortCreditors_perm _), sumBalances_perm (sortDebtors_perm _)]
  exact sumBalances_filter_split bs

theorem initSimplify_corr (bs : List BalanceEntry) :
    CorrInv (sortCreditors (bs.filter (fun b => 0 < b.balance)))
      (sortDebtors (bs.filter (fun b => b.balance < 0))) (initSimplify bs) := by
  refine ⟨rfl, rfl, ?_, ?_, ?_⟩
  · intro k e0 hke0
    simp only [initSimplify, netAdjust_nil, add_zero]
    exact hke0
  · intro k e0 hke0
    simp only [initSimplify, netAdjust_nil, add_zero]
    exact hke0
  · intro g hg
    simp only [initSimplify, List.not_mem_nil] at hg

theorem simplifyRun_props (bs : List BalanceEntry) :
    SignInv (simplifyRun bs) ∧ SettledInv (simplifyRun bs) ∧
      ConsInv (sumBalances bs) (simplifyRun bs) ∧
      (simplifyRun bs).creditors.length = (initSimplify bs).creditors.length ∧
      (simplifyRun bs).debtors.length = (initSimplify bs).debtors.length := by
  have h := runSimplify_inv
    (P := fun s => SignInv s ∧ SettledInv s ∧ ConsInv (sumBalances bs) s ∧
      s.creditors.length = (initSimplify bs).creditors.length ∧
      s.debtors.length = (initSimplify bs).debtors.length)
    (fun s hs hi hj =>
      ⟨simplifyStep_sign s hs.1 hi hj, simplifyStep_settled s hs.2.1 hi hj,
        simplifyStep_cons _ s hs.2.2.1 hi hj,
        (simplifyStep_lengths s).1.trans hs.2.2.2.1,
        (simplifyStep_lengths s).2.trans hs.2.2.2.2⟩)
    ((initSimplify bs).creditors.length + (initSimplify bs).debtors.length)
    (initSimplify bs)
    ⟨initSimplify_sign bs, initSimplify_settled bs, initSimplify_cons bs, rfl, rfl⟩
  exact h

theorem simplifyRun_done (bs : List BalanceEntry) : loopDone (simplifyRun bs) := by
  refine runSimplify_done _ _ (initSimplify_sign bs) ?_
  simp only [initSimplify]
  omega

theorem simplifyRun_corr (bs : List BalanceEntry)
    (hnd : ((sortCreditors (bs.filter (fun b => 0 < b.balance)) ++
      sortDebtors (bs.filter (fun b => b.balance < 0))).map BalanceEntry.id).Nodup) :
    CorrInv (sortCreditors (bs.filter (fun b => 0 < b.balance)))
      (sortDebtors (bs.filter (fun b => b.balance < 0))) (simplifyRun bs) :=
  runSimplify_inv
    (fun s hs hi hj => simplifyStep_corr _ _ hnd s hs hi hj)
    _ _ (initSimplify_corr bs)

theorem abs_sumBalances_le (l : List BalanceEntry) (c : ℚ)
    (h : ∀ e ∈ l, |e.balance| ≤ c) : |sumBalances l| ≤ l.length * c := by
  induction l with
  | nil => simp [sumBalances]
  | cons x xs ih =>
      rw [sumBalances_cons]
      have h1 := h x (List.mem_cons_self x xs)
      have h2 := ih (fun e he => h e (List.mem_cons_of_mem _ he))
      calc |x.balance + sumBalances xs| ≤ |x.balance| + |sumBalances xs| := abs_add _ _
        _ ≤ c + xs.length * c := add_le_add h1 h2
        _ = (x :: xs).length * c := by
            rw [List.length_cons]
            push_cast
            ring

theorem sumBalances_nonpos (l : List BalanceEntry)
    (h : ∀ e ∈ l, e.balance ≤ 0) : sumBalances l ≤ 0 := by
  induction l with
  | nil => simp [sumBalances]
  | cons x xs ih =>
      rw [sumBalances_cons]
      have h1 := h x (List.mem_cons_self x xs)
      have h2 := ih (fun e he => h e (List.mem_cons_of_mem _ he))
      linarith

theorem sumBalances_nonneg (l : List BalanceEntry)
    (h : ∀ e ∈ l, 0 ≤ e.balance) : 0 ≤ sumBalances l := by
  induction l with
  | nil => simp [sumBalances]
  | cons x xs ih =>
      rw [sumBalances_cons]
      have h1 := h x (List.mem_cons_self x xs)
      have h2 := ih (fun e he => h e (List.mem_cons_of_mem _ he))
      linarith

theorem abs_le_abs_sum_of_nonpos (l : List BalanceEntry)
    (h : ∀ e ∈ l, e.balance ≤ 0) {e : BalanceEntry} (he : e ∈ l) :
    |e.balance| ≤ |sumBalances l| := by
  have hperm := List.perm_cons_erase he
  have hsum : sumBalances l = e.balance + sumBalances (l.erase e) := by
    rw [sumBalances_perm hperm, sumBalances_cons]
  have herase : sumBalances (l.erase e) ≤ 0 :=
    sumBalances_nonpos _ (fun x hx => h x (List.mem_of_mem_erase hx))
  have he0 := h e he
  rw [abs_of_nonpos he0, abs_of_nonpos (by linarith : sumBalances l ≤ 0)]
  linarith

theorem abs_le_abs_sum_of_nonneg (l : List BalanceEntry)
    (h : ∀ e ∈ l, 0 ≤ e.balance) {e : BalanceEntry} (he : e ∈ l) :
    |e.balance| ≤ |sumBalances l| := by
  have hperm := List.perm_cons_erase he
  have hsum : sumBalances l = e.balance + sumBalances (l.erase e) := by
    rw [sumBalances_perm hperm, sumBalances_cons]
  have herase : 0 ≤ sumBalances (l.erase e) :=
    sumBalances_nonneg _ (fun x hx => h x (List.mem_of_mem_erase hx))
  have he0 := h e he
  rw [abs_of_nonneg he0, abs_of_nonneg (by linarith : 0 ≤ sumBalances l)]
  linarith

theorem remaining_side_bound (A B : List BalanceEntry) (jB : Nat)
    (hA : ∀ e ∈ A, |e.balance| < 1 / 100)
    (hBset : ∀ e ∈ B.take jB, |e.balance| < 1 / 100)
    (hBrest : (∀ e ∈ B.drop jB, e.balance ≤ 0) ∨ (∀ e ∈ B.drop jB, 0 ≤ e.balance))
    (hsum : sumBalances A + sumBalances B = 0) :
    ∀ e ∈ B, |e.balance| ≤ (1 / 100) * ((A.length : ℚ) + (B.length : ℚ)) := by
  intro e he
  have hsumB : sumBalances B = sumBalances (B.take jB) + sumBalances (B.drop jB) := by
    have h := sumBalances_append (B.take jB) (B.drop jB)
    rw [List.take_append_drop] at h
    exact h
  have hsumA : |sumBalances A| ≤ (A.length : ℚ) * (1 / 100) :=
    abs_sumBalances_le _ _ (fun x hx => (hA x hx).le)
  have hsumT : |sumBalances (B.take jB)| ≤ ((B.take jB).length : ℚ) * (1 / 100) :=
    abs_sumBalances_le _ _ (fun x hx => (hBset x hx).le)
  have htlen : ((B.take jB).length : ℚ) ≤ (B.length : ℚ) := by
    have : (B.take jB).length ≤ B.length := by
      rw [List.length_take]
      exact min_le_right _ _
    exact_mod_cast this
  have hsumD : |sumBalances (B.drop jB)| ≤
      (A.length : ℚ) * (1 / 100) + (B.length : ℚ) * (1 / 100) := by
    have heq : sumBalances (B.drop jB) = -(sumBalances A + sumBalances (B.take jB)) := by
      rw [hsumB] at hsum
      linarith
    rw [heq, abs_neg]
    calc |sumBalances A + sumBalances (B.take jB)| ≤
        |sumBalances A| + |sumBalances (B.take jB)| := abs_add _ _
      _ ≤ (A.length : ℚ) * (1 / 100) + (B.length : ℚ) * (1 / 100) := by
          have : ((B.take jB).length : ℚ) * (1 / 100) ≤ (B.length : ℚ) * (1 / 100) := by
            linarith
          linarith
  have hBlen : (1 : ℚ) ≤ (B.length : ℚ) := by
    have : 1 ≤ B.length := List.length_pos_of_mem he
    exact_mod_cast this
  have hAlen : (0 : ℚ) ≤ (A.length : ℚ) := by positivity
  have hmem : e ∈ B.take jB ∨ e ∈ B.drop jB := by
    rw [← List.mem_append, List.take_append_drop]
    exact he
  rcases hmem with hm | hm
  · have := hBset e hm
    linarith
  · have habs : |e.balance| ≤ |sumBalances (B.drop jB)| := by
      rcases hBrest with hsgn | hsgn
      · exact abs_le_abs_sum_of_nonpos _ hsgn hm
      · exact abs_le_abs_sum_of_nonneg _ hsgn hm
    linarith

theorem final_entry_bound (F : SimplifyState) (hdone : loopDone F)
    (hsign : SignInv F) (hset : SettledInv F) (hcons : ConsInv 0 F) :
    ∀ e : BalanceEntry, e ∈ F.creditors ∨ e ∈ F.debtors →
      |e.balance| ≤ (1 / 100) * ((F.creditors.length : ℚ) + (F.debtors.length : ℚ)) := by
  intro e he
  rcases hdone with hdc | hdd
  · have hA : ∀ x ∈ F.creditors, |x.balance| < 1 / 100 := by
      intro x hx
      obtain ⟨k, hk⟩ := List.mem_iff_getElem?.mp hx
      have hklt : k < F.creditors.length := (List.getElem?_eq_some.mp hk).1
      exact hset.1 _ _ hk (by omega)
    have hBset : ∀ x ∈ F.debtors.take F.j, |x.balance| < 1 / 100 := by
      intro x hx
      obtain ⟨k, hk⟩ := List.mem_iff_getElem?.mp hx
      rw [List.getElem?_take] at hk
      by_cases hkj : k < F.j
      · rw [if_pos hkj] at hk
        exact hset.2 _ _ hk hkj
      · rw [if_neg hkj] at hk
        exact absurd hk (by simp)
    have hBrest : ∀ x ∈ F.debtors.drop F.j, x.balance ≤ 0 := by
      intro x hx
      obtain ⟨k, hk⟩ := List.mem_iff_getElem?.mp hx
      rw [List.getElem?_drop] at hk
      exact (hsign.2 _ _ hk (by omega)).le
    rcases he with hm | hm
    · have h1 := hA e hm
      have hclen : (1 : ℚ) ≤ (F.creditors.length : ℚ) := by
        have : 1 ≤ F.creditors.length := List.length_pos_of_mem hm
        exact_mod_cast this
      have hdlen : (0 : ℚ) ≤ (F.debtors.length : ℚ) := by positivity
      linarith
    · exact remaining_side_bound F.creditors F.debtors F.j hA hBset (Or.inl hBrest)
        hcons e hm
  · have hA : ∀ x ∈ F.debtors, |x.balance| < 1 / 100 := by
      intro x hx
      obtain ⟨k, hk⟩ := List.mem_iff_getElem?.mp hx
      have hklt : k < F.debtors.length := (List.getElem?_eq_some.mp hk).1
      exact hset.2 _ _ hk (by omega)
    have hBset : ∀ x ∈ F.creditors.take F.i, |x.balance| < 1 / 100 := by
      intro x hx
      obtain ⟨k, hk⟩ := List.mem_iff_getElem?.mp hx
      rw [List.getElem?_take] at hk
      by_cases hki : k < F.i
      · rw [if_pos hki] at hk
        exact hset.1 _ _ hk hki
      · rw [if_neg hki] at hk
        exact absurd hk (by simp)
    have hBrest : ∀ x ∈ F.creditors.drop F.i, 0 ≤ x.balance := by
      intro x hx
      obtain ⟨k, hk⟩ := List.mem_iff_getElem?.mp hx
      rw [List.getElem?_drop] at hk
      exact (hsign.1 _ _ hk (by omega)).le
    have hsum2 : sumBalances F.debtors + sumBalances F.creditors = 0 := by
      have := hcons
      rw [ConsInv] at this
      linarith
    rcases he with hm | hm
    · have hres := remaining_side_bound F.debtors F.creditors F.i hA hBset
        (Or.inr hBrest) hsum2 e hm
      linarith
    · have h1 := hA e hm
      have hdlen : (1 : ℚ) ≤ (F.debtors.length : ℚ) := by
        have : 1 ≤ F.debtors.length := List.length_pos_of_mem hm
        exact_mod_cast this
      have hclen : (0 : ℚ) ≤ (F.creditors.length : ℚ) := by positivity
      linarith

theorem mem_sortCreditors_src {bs : List BalanceEntry} {e : BalanceEntry}
    (he : e ∈ sortCreditors (bs.filter (fun b => 0 < b.balance))) :
    e ∈ bs ∧ 0 < e.balance := by
  have h := List.mem_filter.mp ((sortCreditors_perm _).mem_iff.mp he)
  exact ⟨h.1, by simpa using h.2⟩

theorem mem_sortDebtors_src {bs : List BalanceEntry} {e : BalanceEntry}
    (he : e ∈ sortDebtors (bs.filter (fun b => b.balance < 0))) :
    e ∈ bs ∧ e.balance < 0 := by
  have h := List.mem_filter.mp ((sortDebtors_perm _).mem_iff.mp he)
  exact ⟨h.1, by simpa using h.2⟩

theorem nodup_parts (bs : List BalanceEntry) (hnd : (bs.map BalanceEntry.id).Nodup) :
    ((sortCreditors (bs.filter (fun b => 0 < b.balance)) ++
      sortDebtors (bs.filter (fun b => b.balance < 0))).map BalanceEntry.id).Nodup := by
  rw [List.map_append, List.nodup_append]
  refine ⟨?_, ?_, ?_⟩
  · rw [List.Perm.nodup_iff ((sortCreditors_perm _).map BalanceEntry.id)]
    exact List.Nodup.sublist ((List.filter_sublist bs).map BalanceEntry.id) hnd
  · rw [List.Perm.nodup_iff ((sortDebtors_perm _).map BalanceEntry.id)]
    exact List.Nodup.sublist ((List.filter_sublist bs).map BalanceEntry.id) hnd
  · intro a ha hb
    obtain ⟨x, hx, hxa⟩ := List.mem_map.mp ha
    obtain ⟨y, hy, hya⟩ := List.mem_map.mp hb
    obtain ⟨hxbs, hxpos⟩ := mem_sortCreditors_src hx
    obtain ⟨hybs, hyneg⟩ := mem_sortDebtors_src hy
    have hxy : x = y := eq_of_mem_of_id_eq hnd hxbs hybs (hxa.trans hya.symm)
    rw [hxy] at hxpos
    linarith

theorem filter_length_parts (bs : List BalanceEntry) :
    (bs.filter (fun b => 0 < b.balance)).length +
      (bs.filter (fun b => b.balance < 0)).length ≤ bs.length := by
  induction bs with
  | nil => simp
  | cons x xs ih =>
      rw [List.filter_cons, List.filter_cons]
      rcases lt_trichotomy x.balance 0 with hx | hx | hx
      · have h1 : (decide (0 < x.balance)) = false := by
          simp only [decide_eq_false_iff_not, not_lt]
          linarith
        have h2 : (decide (x.balance < 0)) = true := by simpa using hx
        rw [h1, h2]
        simp only [if_neg Bool.false_ne_true, eq_self_iff_true, if_true,
          List.length_cons]
        omega
      · have h1 : (decide (0 < x.balance)) = false := by
          simp only [decide_eq_false_iff_not, not_lt]
          linarith
        have h2 : (decide (x.balance < 0)) = false := by
          simp only [decide_eq_false_iff_not, not_lt]
          linarith
        rw [h1, h2]
        simp only [if_neg Bool.false_ne_true, List.length_cons]
        omega
      · have h1 : (decide (0 < x.balance)) = true := by simpa using hx
        have h2 : (decide (x.balance < 0)) = false := by
          simp only [decide_eq_false_iff_not, not_lt]
          linarith
        rw [h1, h2]
        simp only [if_neg Bool.false_ne_true, eq_self_iff_true, if_true,
          List.length_cons]
        omega

theorem simplifyRun_lists (bs : List BalanceEntry)
    (hnd : (bs.map BalanceEntry.id).Nodup) :
    (simplifyRun bs).creditors =
      (sortCreditors (bs.filter (fun b => 0 < b.balance))).map
        (fun e => { e with balance := resultingBalance e (getPaymentSuggestionsCore bs) }) ∧
    (simplifyRun bs).debtors =
      (sortDebtors (bs.filter (fun b => b.balance < 0))).map
        (fun e => { e with balance := resultingBalance e (getPaymentSuggestionsCore bs) }) := by
  have hcorr := simplifyRun_corr bs (nodup_parts bs hnd)
  obtain ⟨hlc, hld, hcpt, hdpt, _⟩ := hcorr
  constructor
  · apply List.ext_getElem?
    intro n
    rw [List.getElem?_map]
    cases hn : (sortCreditors (bs.filter (fun b => 0 < b.balance)))[n]? with
    | none =>
        rw [List.getElem?_eq_none_iff] at hn
        have hnone : (simplifyRun bs).creditors[n]? = none := by
          rw [List.getElem?_eq_none_iff]
          omega
        rw [hnone]
        rfl
    | some e0 =>
        rw [hcpt n e0 hn]
        rfl
  · apply List.ext_getElem?
    intro n
    rw [List.getElem?_map]
    cases hn : (sortDebtors (bs.filter (fun b => b.balance < 0)))[n]? with
    | none =>
        rw [List.getElem?_eq_none_iff] at hn
        have hnone : (simplifyRun bs).debtors[n]? = none := by
          rw [List.getElem?_eq_none_iff]
          omega
        rw [hnone]
        rfl
    | some e0 =>
        rw [hdpt n e0 hn]
        rfl

set_option maxHeartbeats 2000000 in
/-- C1 (amended): for an input balance list with distinct user ids whose
balances sum to zero, applying every emitted SettlementSuggestion to the
original balances leaves every user's resulting balance within
0.01 × (number of users) of zero.  (The original 0.01 tolerance fails, see
`settlement_tolerance_claim_fails`.) -/
theorem settlement_applied_within_tolerance (bs : List BalanceEntry)
    (hnd : (bs.map BalanceEntry.id).Nodup) (hzero : sumBalances bs = 0) :
    ∀ e ∈ bs, |resultingBalance e (getPaymentSuggestionsCore bs)| ≤
      (1 / 100) * (bs.length : ℚ) := by
  intro e he
  have hndp := nodup_parts bs hnd
  have hcorr := simplifyRun_corr bs hndp
  obtain ⟨hsig, hset, hcons, hlenc, hlend⟩ := simplifyRun_props bs
  have hdone := simplifyRun_done bs
  have hcons0 : ConsInv 0 (simplifyRun bs) := by
    rw [ConsInv] at hcons ⊢
    rw [hzero] at hcons
    exact hcons
  have hbound := final_entry_bound (simplifyRun bs) hdone hsig hset hcons0
  have hlensum : ((simplifyRun bs).creditors.length : ℚ) +
      ((simplifyRun bs).debtors.length : ℚ) ≤ (bs.length : ℚ) := by
    have h1 : (simplifyRun bs).creditors.length =
        (bs.filter (fun b => 0 < b.balance)).length := by
      rw [hlenc]
      exact (sortCreditors_perm _).length_eq
    have h2 : (simplifyRun bs).debtors.length =
        (bs.filter (fun b => b.balance < 0)).length := by
      rw [hlend]
      exact (sortDebtors_perm _).length_eq
    have h3 := filter_length_parts bs
    have : (simplifyRun bs).creditors.length + (simplifyRun bs).debtors.length ≤
        bs.length := by omega
    exact_mod_cast this
  rcases lt_trichotomy e.balance 0 with hneg | hz | hpos
  · have hef : e ∈ bs.filter (fun b => b.balance < 0) :=
      List.mem_filter.mpr ⟨he, by simpa using hneg⟩
    have hmem : e ∈ sortDebtors (bs.filter (fun b => b.balance < 0)) :=
      (sortDebtors_perm _).mem_iff.mpr hef
    obtain ⟨k, hk⟩ := List.mem_iff_getElem?.mp hmem
    have hfin := hcorr.2.2.2.1 k e hk
    have hmem2 := mem_of_getElemOpt hfin
    have hb0 := hbound _ (Or.inr hmem2)
    simp only at hb0
    rw [show (simplifyRun bs).out = getPaymentSuggestionsCore bs from rfl] at hb0
    rw [resultingBalance]
    linarith
  · have hnet : netAdjust e.id (getPaymentSuggestionsCore bs) = 0 := by
      apply netAdjust_irrelevant
      intro g hg
      obtain ⟨_, ⟨a, ha, hfa⟩, ⟨b, hb2, htb⟩⟩ := hcorr.2.2.2.2 g hg
      obtain ⟨habs, haneg⟩ := mem_sortDebtors_src ha
      obtain ⟨hbbs, hbpos⟩ := mem_sortCreditors_src hb2
      constructor
      · rw [hfa]
        intro he2
        have := eq_of_mem_of_id_eq hnd habs he he2
        rw [this, hz] at haneg
        linarith
      · rw [htb]
        intro he2
        have := eq_of_mem_of_id_eq hnd hbbs he he2
        rw [this, hz] at hbpos
        linarith
    rw [resultingBalance, hz, hnet, add_zero, abs_zero]
    positivity
  · have hef : e ∈ bs.filter (fun b => 0 < b.balance) :=
      List.mem_filter.mpr ⟨he, by simpa using hpos⟩
    have hmem : e ∈ sortCreditors (bs.filter (fun b => 0 < b.balance)) :=
      (sortCreditors_perm _).mem_iff.mpr hef
    obtain ⟨k, hk⟩ := List.mem_iff_getElem?.mp hmem
    have hfin := hcorr.2.2.1 k e hk
    have hmem2 := mem_of_getElemOpt hfin
    have hb0 := hbound _ (Or.inl hmem2)
    simp only at hb0
    rw [show (simplifyRun bs).out = getPaymentSuggestionsCore bs from rfl] at hb0
    rw [resultingBalance]
    linarith

set_option maxHeartbeats 2000000 in
/-- C1 witness: the two-user ledger `[+50, -50]` satisfies the hypotheses
and every resulting balance obeys the bound. -/
theorem settlement_applied_within_tolerance_witness :
    (([⟨1, "A", "X", 50⟩, ⟨2, "B", "Y", -50⟩] : List BalanceEntry).map
      BalanceEntry.id).Nodup ∧
    sumBalances [⟨1, "A", "X", 50⟩, ⟨2, "B", "Y", -50⟩] = 0 ∧
    ∀ e ∈ ([⟨1, "A", "X", 50⟩, ⟨2, "B", "Y", -50⟩] : List BalanceEntry),
      |resultingBalance e (getPaymentSuggestionsCore
        [⟨1, "A", "X", 50⟩, ⟨2, "B", "Y", -50⟩])| ≤
        (1 / 100) *
          (([⟨1, "A", "X", 50⟩, ⟨2, "B", "Y", -50⟩] : List BalanceEntry).length : ℚ) :=
  ⟨by decide, by with_unfolding_all decide,
    settlement_applied_within_tolerance _ (by decide) (by with_unfolding_all decide)⟩

set_option maxHeartbeats 2000000 in
/-- C1 counterexample: the balances `[0.004, 0.004, 0.004, -0.012]` have
distinct ids and sum to exactly zero, yet the simplifier emits no
suggestion at all (each rounded transfer is 0), so the debtor is left at
-0.012, beyond the claimed 0.01 tolerance. -/
theorem settlement_tolerance_claim_fails :
    (([⟨1, "A", "A", 1 / 250⟩, ⟨2, "B", "B", 1 / 250⟩, ⟨3, "C", "C", 1 / 250⟩,
        ⟨4, "D", "D", -(3 / 250)⟩] : List BalanceEntry).map BalanceEntry.id).Nodup ∧
    sumBalances [⟨1, "A", "A", 1 / 250⟩, ⟨2, "B", "B", 1 / 250⟩,
      ⟨3, "C", "C", 1 / 250⟩, ⟨4, "D", "D", -(3 / 250)⟩] = 0 ∧
    getPaymentSuggestionsCore [⟨1, "A", "A", 1 / 250⟩, ⟨2, "B", "B", 1 / 250⟩,
      ⟨3, "C", "C", 1 / 250⟩, ⟨4, "D", "D", -(3 / 250)⟩] = [] ∧
    ¬ (|resultingBalance ⟨4, "D", "D", -(3 / 250)⟩
        (getPaymentSuggestionsCore [⟨1, "A", "A", 1 / 250⟩, ⟨2, "B", "B", 1 / 250⟩,
          ⟨3, "C", "C", 1 / 250⟩, ⟨4, "D", "D", -(3 / 250)⟩])| ≤ 1 / 100) := by
  with_unfolding_all decide

/-- C8: on a balance list with distinct user ids, every emitted
SettlementSuggestion has a payer distinct from its payee and a strictly
positive amount. -/
theorem suggestions_no_self_payment_positive_amount (bs : List BalanceEntry)
    (hnd : (bs.map BalanceEntry.id).Nodup) :
    ∀ g ∈ getPaymentSuggestionsCore bs, g.fromId ≠ g.toId ∧ 0 < g.amount := by
  intro g hg
  have hcorr := simplifyRun_corr bs (nodup_parts bs hnd)
  obtain ⟨hamt, ⟨a, ha, hfa⟩, ⟨b, hb, htb⟩⟩ := hcorr.2.2.2.2 g hg
  refine ⟨?_, hamt⟩
  rw [hfa, htb]
  intro he
  obtain ⟨habs, haneg⟩ := mem_sortDebtors_src ha
  obtain ⟨hbbs, hbpos⟩ := mem_sortCreditors_src hb
  have := eq_of_mem_of_id_eq hnd habs hbbs he
  rw [this] at haneg
  linarith

/-- C8 witness: instantiation on the ledger `[+10, -5]`. -/
theorem suggestions_no_self_payment_positive_amount_witness :
    (([⟨1, "A", "X", 10⟩, ⟨2, "B", "Y", -5⟩] : List BalanceEntry).map
      BalanceEntry.id).Nodup ∧
    ∀ g ∈ getPaymentSuggestionsCore [⟨1, "A", "X", 10⟩, ⟨2, "B", "Y", -5⟩],
      g.fromId ≠ g.toId ∧ 0 < g.amount :=
  ⟨by decide, suggestions_no_self_payment_positive_amount _ (by decide)⟩

/-- C9 (amended): the simplifier mutates the working creditor/debtor
arrays in place (and those arrays alias the entries of the invocation's
balance list): after the run each working entry equals its initial entry
with the net effect of the emitted suggestions applied.  The mutation is
confined to the state of this one invocation. -/
theorem simplifier_mutation_scoped (bs : List BalanceEntry)
    (hnd : (bs.map BalanceEntry.id).Nodup) :
    (simplifyRun bs).creditors =
      (sortCreditors (bs.filter (fun b => 0 < b.balance))).map
        (fun e => { e with balance := resultingBalance e (getPaymentSuggestionsCore bs) }) ∧
    (simplifyRun bs).debtors =
      (sortDebtors (bs.filter (fun b => b.balance < 0))).map
        (fun e => { e with balance := resultingBalance e (getPaymentSuggestionsCore bs) }) :=
  simplifyRun_lists bs hnd

/-- C9 witness: instantiation on the ledger `[+50, -50]`. -/
theorem simplifier_mutation_scoped_witness :
    (([⟨1, "A", "X", 50⟩, ⟨2, "B", "Y", -50⟩] : List BalanceEntry).map
      BalanceEntry.id).Nodup ∧
    (simplifyRun [⟨1, "A", "X", 50⟩, ⟨2, "B", "Y", -50⟩]).creditors =
      (sortCreditors (([⟨1, "A", "X", 50⟩, ⟨2, "B", "Y", -50⟩] : List BalanceEntry).filter
        (fun b => 0 < b.balance))).map
        (fun e => { e with balance := resultingBalance e (getPaymentSuggestionsCore
          [⟨1, "A", "X", 50⟩, ⟨2, "B", "Y", -50⟩]) }) :=
  ⟨by decide, (simplifier_mutation_scoped _ (by decide)).1⟩

set_option maxHeartbeats 2000000 in
/-- C9 counterexample: on `[+50, -50]` the working creditor entry (which in
the source is the same object as the balance-list entry of user 1) ends the
run holding balance 0, not its original balance 50 — the original claim
that every entry still holds its original balance is false. -/
theorem simplifier_mutates_input_entries :
    sortCreditors (([⟨1, "A", "X", 50⟩, ⟨2, "B", "Y", -50⟩] : List BalanceEntry).filter
      (fun b => 0 < b.balance)) = [⟨1, "A", "X", 50⟩] ∧
    (simplifyRun [⟨1, "A", "X", 50⟩, ⟨2, "B", "Y", -50⟩]).creditors =
      [⟨1, "A", "X", 0⟩] ∧
    (⟨1, "A", "X", 0⟩ : BalanceEntry) ≠ ⟨1, "A", "X", 50⟩ := by
  with_unfolding_all decide

/-- C10: the two-pointer loop terminates within
`creditors.length + debtors.length` iterations: with that much fuel the
loop condition has failed, and any extra fuel leaves the state unchanged,
so the fuelled model coincides with the source's unbounded `while` loop. -/
theorem simplifier_two_pointer_terminates (bs : List BalanceEntry) :
    loopDone (simplifyRun bs) ∧
    ∀ extra : Nat, runSimplify ((initSimplify bs).creditors.length +
      (initSimplify bs).debtors.length + extra) (initSimplify bs) = simplifyRun bs := by
  refine ⟨simplifyRun_done bs, ?_⟩
  intro extra
  rw [runSimplify_add]
  exact runSimplify_of_done extra _ (simplifyRun_done bs)

theorem stableInsert_pairwise (before : BalanceEntry → BalanceEntry → Bool)
    (hasymm : ∀ a b, before a b = true → before b a = false)
    (hnt : ∀ a b c, before b a = false → before c b = false → before c a = false)
    (e : BalanceEntry) (l : List BalanceEntry)
    (h : l.Pairwise (fun p r => before r p = false)) :
    (stableInsert before e l).Pairwise (fun p r => before r p = false) := by
  induction l with
  | nil => simp [stableInsert]
  | cons x xs ih =>
      rw [List.pairwise_cons] at h
      obtain ⟨hx, hxs⟩ := h
      by_cases hb : before x e = true
      · rw [stableInsert, if_pos hb, List.pairwise_cons]
        constructor
        · intro y hy
          have hmem := (stableInsert_perm before e xs).mem_iff.mp hy
          rcases List.mem_cons.mp hmem with rfl | hyxs
          · exact hasymm x y hb
          · exact hx y hyxs
        · exact ih hxs
      · rw [stableInsert, if_neg hb, List.pairwise_cons]
        constructor
        · intro y hy
          rcases List.mem_cons.mp hy with rfl | hyxs
          · simpa using hb
          · exact hnt e x y (by simpa using hb) (hx y hyxs)
        · rw [List.pairwise_cons]
          exact ⟨hx, hxs⟩

theorem stableSortBy_pairwise (before : BalanceEntry → BalanceEntry → Bool)
    (hasymm : ∀ a b, before a b = true → before b a = false)
    (hnt : ∀ a b c, before b a = false → before c b = false → before c a = false)
    (l : List BalanceEntry) :
    (stableSortBy before l).Pairwise (fun p r => before r p = false) := by
  induction l with
  | nil => simp [stableSortBy]
  | cons x xs ih =>
      exact stableInsert_pairwise before hasymm hnt x (stableSortBy before xs) ih

theorem sortCreditors_sorted (l : List BalanceEntry) :
    (sortCreditors l).Pairwise (fun p r => r.balance ≤ p.balance) := by
  have h := stableSortBy_pairwise creditorBefore
    (fun a b hab => by
      simp only [creditorBefore, decide_eq_true_eq] at hab
      simp only [creditorBefore, decide_eq_false_iff_not, not_lt]
      linarith)
    (fun a b c hba hcb => by
      simp only [creditorBefore, decide_eq_false_iff_not, not_lt] at hba hcb ⊢
      linarith)
    l
  refine h.imp ?_
  intro a b hab
  simp only [creditorBefore, decide_eq_false_iff_not, not_lt] at hab
  exact hab

theorem sortDebtors_sorted (l : List BalanceEntry) :
    (sortDebtors l).Pairwise (fun p r => p.balance ≤ r.balance) := by
  have h := stableSortBy_pairwise debtorBefore
    (fun a b hab => by
      simp only [debtorBefore, decide_eq_true_eq] at hab
      simp only [debtorBefore, decide_eq_false_iff_not, not_lt]
      linarith)
    (fun a b c hba hcb => by
      simp only [debtorBefore, decide_eq_false_iff_not, not_lt] at hba hcb ⊢
      linarith)
    l
  refine h.imp ?_
  intro a b hab
  simp only [debtorBefore, decide_eq_false_iff_not, not_lt] at hab
  exact hab

theorem filter_stableInsert (before : BalanceEntry → BalanceEntry → Bool)
    (e : BalanceEntry) (q : ℚ)
    (h1 : ∀ x, before x e = true → x.balance ≠ e.balance) (l : List BalanceEntry) :
    (stableInsert before e l).filter (fun x => x.balance == q) =
      if e.balance = q then e :: l.filter (fun x => x.balance == q)
      else l.filter (fun x => x.balance == q) := by
  induction l with
  | nil =>
      by_cases he : e.balance = q
      · have hb : (e.balance == q) = true := by simpa using he
        simp [stableInsert, List.filter, hb, he]
      · have hb : (e.balance == q) = false := by simpa using he
        simp [stableInsert, List.filter, hb, he]
  | cons x xs ih =>
      by_cases hb : before x e = true
      · rw [stableInsert, if_pos hb]
        by_cases hxq : x.balance = q
        · have hxb : (x.balance == q) = true := by simpa using hxq
          have heq : ¬ e.balance = q := fun he => h1 x hb (hxq.trans he.symm)
          simp only [List.filter_cons, hxb, eq_self_iff_true, if_true, ih, if_neg heq]
        · have hxb : (x.balance == q) = false := by simpa using hxq
          simp only [List.filter_cons, hxb, Bool.false_eq_true, if_false, ih]
      · rw [stableInsert, if_neg hb]
        by_cases he : e.balance = q
        · have heb : (e.balance == q) = true := by simpa using he
          simp only [List.filter_cons, heb, eq_self_iff_true, if_true, if_pos he]
        · have heb : (e.balance == q) = false := by simpa using he
          simp only [List.filter_cons, heb, Bool.false_eq_true, if_false, if_neg he]

theorem filter_stableSortBy (before : BalanceEntry → BalanceEntry → Bool)
    (hirr : ∀ a b, a.balance = b.balance → before a b = false)
    (l : List BalanceEntry) (q : ℚ) :
    (stableSortBy before l).filter (fun x => x.balance == q) =
      l.filter (fun x => x.balance == q) := by
  induction l with
  | nil => rfl
  | cons x xs ih =>
      have hstep : stableSortBy before (x :: xs) =
          stableInsert before x (stableSortBy before xs) := rfl
      rw [hstep, filter_stableInsert before x q
        (fun y hy heq => by
          have := hirr y x heq
          rw [this] at hy
          exact Bool.false_ne_true hy)]
      by_cases hx : x.balance = q
      · have hxb : (x.balance == q) = true := by simpa using hx
        rw [if_pos hx, ih]
        simp only [List.filter_cons, hxb, eq_self_iff_true, if_true]
      · have hxb : (x.balance == q) = false := by simpa using hx
        rw [if_neg hx, ih]
        simp only [List.filter_cons, hxb, Bool.false_eq_true, if_false]

/-- C2 (amended): the creditor and debtor sorts compare by balance only
(descending for creditors, ascending for debtors) and are stable: the
output is a permutation of the input, it is sorted by balance, and the
entries of any equal-balance class appear in their input order (not in user
id order).  The whole simplifier is a pure function of the input list, so
identical input lists give identical output. -/
theorem sorts_balance_only_and_stable (l : List BalanceEntry) (q : ℚ) :
    (sortCreditors l).Perm l ∧
    (sortCreditors l).Pairwise (fun p r => r.balance ≤ p.balance) ∧
    (sortCreditors l).filter (fun x => x.balance == q) =
      l.filter (fun x => x.balance == q) ∧
    (sortDebtors l).Perm l ∧
    (sortDebtors l).Pairwise (fun p r => p.balance ≤ r.balance) ∧
    (sortDebtors l).filter (fun x => x.balance == q) =
      l.filter (fun x => x.balance == q) := by
  refine ⟨sortCreditors_perm l, sortCreditors_sorted l, ?_, sortDebtors_perm l,
    sortDebtors_sorted l, ?_⟩
  · exact filter_stableSortBy creditorBefore
      (fun a b hab => by
        simp only [creditorBefore, decide_eq_false_iff_not, not_lt]
        linarith [le_of_eq hab]) l q
  · exact filter_stableSortBy debtorBefore
      (fun a b hab => by
        simp only [debtorBefore, decide_eq_false_iff_not, not_lt]
        linarith [le_of_eq hab]) l q

set_option maxHeartbeats 2000000 in
/-- C2 counterexample: two creditors tied at balance 5.  The implemented
sort keeps them in input order (id 2 before id 1 when listed that way),
whereas the claimed id tie-break would always put id 1 first; the emitted
suggestion order differs accordingly, so the sorts do not break ties by
user id. -/
theorem sort_ties_follow_input_order_not_id :
    sortCreditors [⟨2, "B", "Y", 5⟩, ⟨1, "A", "X", 5⟩] =
      [⟨2, "B", "Y", 5⟩, ⟨1, "A", "X", 5⟩] ∧
    sortCreditors [⟨1, "A", "X", 5⟩, ⟨2, "B", "Y", 5⟩] =
      [⟨1, "A", "X", 5⟩, ⟨2, "B", "Y", 5⟩] ∧
    specSortCreditors [⟨2, "B", "Y", 5⟩, ⟨1, "A", "X", 5⟩] =
      [⟨1, "A", "X", 5⟩, ⟨2, "B", "Y", 5⟩] ∧
    sortCreditors [⟨2, "B", "Y", 5⟩, ⟨1, "A", "X", 5⟩] ≠
      specSortCreditors [⟨2, "B", "Y", 5⟩, ⟨1, "A", "X", 5⟩] ∧
    getPaymentSuggestionsCore [⟨2, "B", "Y", 5⟩, ⟨1, "A", "X", 5⟩, ⟨3, "C", "Z", -10⟩] =
      [⟨3, "C Z", 2, "B Y", 5⟩, ⟨3, "C Z", 1, "A X", 5⟩] := by
  with_unfolding_all decide

theorem out_nil_of_no_creditors (bs : List BalanceEntry)
    (hc : bs.filter (fun b => 0 < b.balance) = []) :
    getPaymentSuggestionsCore bs = [] := by
  have h0 : (initSimplify bs).creditors = [] := by
    rw [initSimplify]
    rw [hc]
    rfl
  have hdone : loopDone (initSimplify bs) := by
    rw [loopDone, h0]
    left
    simp [initSimplify]
  show (runSimplify _ (initSimplify bs)).out = []
  rw [runSimplify_of_done _ _ hdone]
  rfl

theorem out_nil_of_no_debtors (bs : List BalanceEntry)
    (hd : bs.filter (fun b => b.balance < 0) = []) :
    getPaymentSuggestionsCore bs = [] := by
  have h0 : (initSimplify bs).debtors = [] := by
    rw [initSimplify]
    rw [hd]
    rfl
  have hdone : loopDone (initSimplify bs) := by
    rw [loopDone, h0]
    right
    simp [initSimplify]
  show (runSimplify _ (initSimplify bs)).out = []
  rw [runSimplify_of_done _ _ hdone]
  rfl

set_option maxHeartbeats 2000000 in
/-- C7: the simplifier is total over every input shape and raises no
errors: an all-zero balance list, the empty list, and any single-member
list each yield the empty suggestion list; on the unbalanced ledger
`[+10, -5]` it settles the smaller side fully (one transfer of 5) and
silently leaves the residual +5 unsuggested. -/
theorem simplifier_total_all_input_shapes (bs : List BalanceEntry)
    (e2 : BalanceEntry) (hz : ∀ x ∈ bs, x.balance = 0) :
    getPaymentSuggestionsCore bs = [] ∧
    getPaymentSuggestionsCore [] = [] ∧
    getPaymentSuggestionsCore [e2] = [] ∧
    getPaymentSuggestionsCore [⟨1, "A", "X", 10⟩, ⟨2, "B", "Y", -5⟩] =
      [⟨2, "B Y", 1, "A X", 5⟩] ∧
    resultingBalance ⟨1, "A", "X", 10⟩
      (getPaymentSuggestionsCore [⟨1, "A", "X", 10⟩, ⟨2, "B", "Y", -5⟩]) = 5 ∧
    resultingBalance ⟨2, "B", "Y", -5⟩
      (getPaymentSuggestionsCore [⟨1, "A", "X", 10⟩, ⟨2, "B", "Y", -5⟩]) = 0 := by
  refine ⟨?_, rfl, ?_, ?_, ?_, ?_⟩
  · apply out_nil_of_no_creditors
    rw [List.filter_eq_nil_iff]
    intro a ha
    simp [hz a ha]
  · rcases lt_trichotomy e2.balance 0 with h | h | h
    · apply out_nil_of_no_creditors
      rw [List.filter_eq_nil_iff]
      intro a ha
      rw [List.mem_singleton] at ha
      subst ha
      simp only [decide_eq_true_eq, not_lt]
      linarith
    · apply out_nil_of_no_creditors
      rw [List.filter_eq_nil_iff]
      intro a ha
      rw [List.mem_singleton] at ha
      subst ha
      simp only [decide_eq_true_eq, not_lt]
      linarith
    · apply out_nil_of_no_debtors
      rw [List.filter_eq_nil_iff]
      intro a ha
      rw [List.mem_singleton] at ha
      subst ha
      simp only [decide_eq_true_eq, not_lt]
      linarith
  · with_unfolding_all decide
  · with_unfolding_all decide
  · with_unfolding_all decide

set_option maxHeartbeats 2000000 in
/-- C7 witness: instantiation on the all-zero singleton list and the
single-member entry with balance 7. -/
theorem simplifier_total_all_input_shapes_witness :
    (∀ x ∈ ([⟨5, "Z", "Z", 0⟩] : List BalanceEntry), x.balance = 0) ∧
    getPaymentSuggestionsCore [⟨5, "Z", "Z", 0⟩] = [] ∧
    getPaymentSuggestionsCore [] = [] ∧
    getPaymentSuggestionsCore [⟨9, "S", "T", 7⟩] = [] :=
  have h := simplifier_total_all_input_shapes [⟨5, "Z", "Z", 0⟩] ⟨9, "S", "T", 7⟩
    (by with_unfolding_all decide)
  ⟨by with_unfolding_all decide, h.1, h.2.1, h.2.2.1⟩

theorem lookupAmount_eq_zero (m : List (Nat × ℚ)) (uid : Nat)
    (h : ∀ p ∈ m, p.1 ≠ uid) : lookupAmount m uid = 0 := by
  rw [lookupAmount]
  have hnone : m.find? (fun p => p.1 == uid) = none :=
    List.find?_eq_none.mpr (fun x hx => by simpa using h x hx)
  rw [hnone]

theorem lookupAmount_cons (k : Nat) (v : ℚ) (m : List (Nat × ℚ)) (uid : Nat) :
    lookupAmount ((k, v) :: m) uid = if k = uid then v else lookupAmount m uid := by
  by_cases h : k = uid
  · have hb : (((k, v) : Nat × ℚ).1 == uid) = true := by simpa using h
    simp [lookupAmount, List.find?_cons, hb, h]
  · have hb : (((k, v) : Nat × ℚ).1 == uid) = false := by simpa using h
    simp [lookupAmount, List.find?_cons, hb, h]

theorem sum_lookupAmount (ids : List Nat) (hids : ids.Nodup) :
    ∀ m : List (Nat × ℚ), (m.map Prod.fst).Nodup → (∀ p ∈ m, p.1 ∈ ids) →
    (ids.map (lookupAmount m)).sum = (m.map Prod.snd).sum := by
  intro m
  induction m with
  | nil =>
      intro _ _
      have hmap : ids.map (lookupAmount []) = ids.map (fun _ => (0 : ℚ)) := by
        apply List.map_congr_left
        intro x _
        rfl
      rw [hmap]
      simp
  | cons p m ih =>
      intro hm hsub
      obtain ⟨k, v⟩ := p
      rw [List.map_cons, List.nodup_cons] at hm
      obtain ⟨hknot, hmnd⟩ := hm
      have hk : k ∈ ids := hsub (k, v) (List.mem_cons_self _ _)
      have hsub2 : ∀ q ∈ m, q.1 ∈ ids := fun q hq => hsub q (List.mem_cons_of_mem _ hq)
      have hperm : ids.Perm (k :: ids.erase k) := List.perm_cons_erase hk
      have herase_ne : ∀ uid ∈ ids.erase k, uid ≠ k :=
        fun uid hu => ((List.Nodup.mem_erase_iff hids).mp hu).1
      have hcong : (ids.erase k).map (lookupAmount ((k, v) :: m)) =
          (ids.erase k).map (lookupAmount m) := by
        apply List.map_congr_left
        intro uid hu
        rw [lookupAmount_cons, if_neg (fun he => (herase_ne uid hu) he.symm)]
      have hmk : lookupAmount m k = 0 := by
        apply lookupAmount_eq_zero
        intro q hq he
        have hq2 : q.1 ∈ m.map Prod.fst := List.mem_map_of_mem Prod.fst hq
        rw [he] at hq2
        exact hknot hq2
      have hsum1 : (ids.map (lookupAmount ((k, v) :: m))).sum =
          v + ((ids.erase k).map (lookupAmount m)).sum := by
        rw [(hperm.map (lookupAmount ((k, v) :: m))).sum_eq]
        rw [List.map_cons, List.sum_cons, lookupAmount_cons, if_pos rfl, hcong]
      have hsum2 : (ids.map (lookupAmount m)).sum =
          ((ids.erase k).map (lookupAmount m)).sum := by
        rw [(hperm.map (lookupAmount m)).sum_eq]
        rw [List.map_cons, List.sum_cons, hmk, zero_add]
      rw [hsum1, List.map_cons, List.sum_cons, ← ih hmnd hsub2, hsum2]

theorem sum_map_sub_round2 (l : List UserRow) (f : UserRow → ℚ) :
    |(l.map (fun u => round2 (f u))).sum - (l.map f).sum| ≤ (l.length : ℚ) * (1 / 200) := by
  induction l with
  | nil => simp
  | cons x xs ih =>
      rw [List.map_cons, List.map_cons, List.sum_cons, List.sum_cons]
      have h1 := abs_round2_sub (f x)
      have heq : round2 (f x) + (xs.map (fun u => round2 (f u))).sum -
          (f x + (xs.map f).sum) =
          (round2 (f x) - f x) +
            ((xs.map (fun u => round2 (f u))).sum - (xs.map f).sum) := by ring
      rw [heq]
      calc |(round2 (f x) - f x) +
            ((xs.map (fun u => round2 (f u))).sum - (xs.map f).sum)| ≤
            |round2 (f x) - f x| +
              |(xs.map (fun u => round2 (f u))).sum - (xs.map f).sum| := abs_add _ _
        _ ≤ 1 / 200 + (xs.length : ℚ) * (1 / 200) := add_le_add h1 ih
        _ = ((x :: xs).length : ℚ) * (1 / 200) := by
            rw [List.length_cons]
            push_cast
            ring

theorem sum_map_lookup_split (l : List UserRow) (p s r o : List (Nat × ℚ)) :
    (l.map (fun u => (lookupAmount p u.id + lookupAmount s u.id) -
      (lookupAmount r u.id + lookupAmount o u.id))).sum =
      ((l.map (fun u => lookupAmount p u.id)).sum +
        (l.map (fun u => lookupAmount s u.id)).sum) -
      ((l.map (fun u => lookupAmount r u.id)).sum +
        (l.map (fun u => lookupAmount o u.id)).sum) := by
  induction l with
  | nil => simp
  | cons x xs ih =>
      simp only [List.map_cons, List.sum_cons, ih]
      ring

theorem sum_map_lookup_ids (l : List UserRow) (m : List (Nat × ℚ)) :
    (l.map (fun u => lookupAmount m u.id)).sum =
      ((l.map UserRow.id).map (lookupAmount m)).sum := by
  rw [List.map_map]
  rfl

/-- C5: the Balance Aggregator computes
`balance = round2 ((paid + sent) - (received + owed))` per user, rounding
to 2 decimal places only once at the final balance (the four category
fields are passed through unrounded), and a user absent from a mapping
contributes 0 for that category. -/
theorem aggregator_balance_formula (paid owed sent received : List (Nat × ℚ))
    (user : UserRow) :
    (computeUserBalance paid owed sent received user).balance =
      round2 ((lookupAmount paid user.id + lookupAmount sent user.id) -
        (lookupAmount received user.id + lookupAmount owed user.id)) ∧
    (computeUserBalance paid owed sent received user).paidAmount =
      lookupAmount paid user.id ∧
    (computeUserBalance paid owed sent received user).owedAmount =
      lookupAmount owed user.id ∧
    (computeUserBalance paid owed sent received user).sentAmount =
      lookupAmount sent user.id ∧
    (computeUserBalance paid owed sent received user).receivedAmount =
      lookupAmount received user.id ∧
    ((∀ p ∈ paid, p.1 ≠ user.id) →
      (computeUserBalance paid owed sent received user).paidAmount = 0) ∧
    ((∀ p ∈ owed, p.1 ≠ user.id) →
      (computeUserBalance paid owed sent received user).owedAmount = 0) ∧
    ((∀ p ∈ sent, p.1 ≠ user.id) →
      (computeUserBalance paid owed sent received user).sentAmount = 0) ∧
    ((∀ p ∈ received, p.1 ≠ user.id) →
      (computeUserBalance paid owed sent received user).receivedAmount = 0) ∧
    getBalancesCore [user] paid owed sent received =
      [computeUserBalance paid owed sent received user] := by
  refine ⟨rfl, rfl, rfl, rfl, rfl, ?_, ?_, ?_, ?_, rfl⟩
  · intro h
    exact lookupAmount_eq_zero paid user.id h
  · intro h
    exact lookupAmount_eq_zero owed user.id h
  · intro h
    exact lookupAmount_eq_zero sent user.id h
  · intro h
    exact lookupAmount_eq_zero received user.id h

/-- C5 witness: user 1 is absent from the paid mapping `[(2, 5)]`, so the
paid category contributes 0 and the balance is the rounded formula value. -/
theorem aggregator_balance_formula_witness :
    (∀ p ∈ ([(2, 5)] : List (Nat × ℚ)), p.1 ≠ (1 : Nat)) ∧
    (computeUserBalance [(2, 5)] [] [] [] ⟨1, "A", "X", "a", "v"⟩).paidAmount = 0 ∧
    (computeUserBalance [(2, 5)] [] [] [] ⟨1, "A", "X", "a", "v"⟩).balance =
      round2 ((lookupAmount [(2, 5)] 1 + lookupAmount [] 1) -
        (lookupAmount [] 1 + lookupAmount [] 1)) :=
  have h := aggregator_balance_formula [(2, 5)] [] [] [] ⟨1, "A", "X", "a", "v"⟩
  ⟨by decide, h.2.2.2.2.2.1 (by decide), h.1⟩

/-- C6: when total paid plus total sent equals total owed plus total
received exactly, and the four mappings only mention roster users (with each
mapping and the roster free of duplicate ids, as the SQL GROUP BY
guarantees), the aggregated balances sum to 0 within 0.01 × (number of
users). -/
theorem aggregator_conservation (users : List UserRow)
    (paid owed sent received : List (Nat × ℚ))
    (husers : (users.map UserRow.id).Nodup)
    (hpn : (paid.map Prod.fst).Nodup) (hpk : ∀ p ∈ paid, p.1 ∈ users.map UserRow.id)
    (hon : (owed.map Prod.fst).Nodup) (hok : ∀ p ∈ owed, p.1 ∈ users.map UserRow.id)
    (hsn : (sent.map Prod.fst).Nodup) (hsk : ∀ p ∈ sent, p.1 ∈ users.map UserRow.id)
    (hrn : (received.map Prod.fst).Nodup)
    (hrk : ∀ p ∈ received, p.1 ∈ users.map UserRow.id)
    (hbal : (paid.map Prod.snd).sum + (sent.map Prod.snd).sum =
      (owed.map Prod.snd).sum + (received.map Prod.snd).sum) :
    |((getBalancesCore users paid owed sent received).map UserBalanceRow.balance).sum| ≤
      (1 / 100) * (users.length : ℚ) := by
  have hmap : (getBalancesCore users paid owed sent received).map UserBalanceRow.balance =
      users.map (fun u => round2 ((lookupAmount paid u.id + lookupAmount sent u.id) -
        (lookupAmount received u.id + lookupAmount owed u.id))) := by
    rw [getBalancesCore, List.map_map]
    rfl
  have hx : (users.map (fun u => (lookupAmount paid u.id + lookupAmount sent u.id) -
      (lookupAmount received u.id + lookupAmount owed u.id))).sum = 0 := by
    rw [sum_map_lookup_split]
    rw [sum_map_lookup_ids users paid, sum_map_lookup_ids users sent,
      sum_map_lookup_ids users received, sum_map_lookup_ids users owed]
    rw [sum_lookupAmount _ husers paid hpn hpk,
      sum_lookupAmount _ husers sent hsn hsk,
      sum_lookupAmount _ husers received hrn hrk,
      sum_lookupAmount _ husers owed hon hok]
    linarith
  have hd := sum_map_sub_round2 users
    (fun u => (lookupAmount paid u.id + lookupAmount sent u.id) -
      (lookupAmount received u.id + lookupAmount owed u.id))
  rw [hx, sub_zero] at hd
  rw [hmap]
  have hlen : (0 : ℚ) ≤ (users.length : ℚ) := by positivity
  linarith

/-- C6 witness: two users, user 1 paid 10 and user 2 owes 10; the totals
match and the balances sum to 0 within the tolerance. -/
theorem aggregator_conservation_witness :
    ((([⟨1, "A", "X", "a", "v"⟩, ⟨2, "B", "Y", "b", "w"⟩] :
      List UserRow).map UserRow.id).Nodup ∧
      (([(1, 10)] : List (Nat × ℚ)).map Prod.snd).sum + (([] : List (Nat × ℚ)).map Prod.snd).sum =
        (([(2, 10)] : List (Nat × ℚ)).map Prod.snd).sum +
          (([] : List (Nat × ℚ)).map Prod.snd).sum) ∧
    |((getBalancesCore [⟨1, "A", "X", "a", "v"⟩, ⟨2, "B", "Y", "b", "w"⟩]
        [(1, 10)] [(2, 10)] [] []).map UserBalanceRow.balance).sum| ≤
      (1 / 100) *
        (([⟨1, "A", "X", "a", "v"⟩, ⟨2, "B", "Y", "b", "w"⟩] : List UserRow).length : ℚ) :=
  ⟨⟨by decide, by with_unfolding_all decide⟩,
    aggregator_conservation _ [(1, 10)] [(2, 10)] [] [] (by decide) (by decide)
      (by decide) (by decide) (by decide) (by decide) (by decide) (by decide)
      (by decide) (by with_unfolding_all decide)⟩

/-- C4 (amended): when any of the five upstream aggregation queries fails,
`getBalances` catches the error and substitutes the empty row list for that
query, so the result is indistinguishable from genuinely empty data: a
failed mapping query yields a balance list with that category summed to 0
for every user, a failed users query yields the empty balance list, and in
no case is an error propagated. -/
theorem fallback_substitutes_zero_on_error (f : FetchResults) (msg : String) :
    (f.paidRes = Except.error msg →
      getBalancesWithFallback f =
        getBalancesWithFallback { f with paidRes := Except.ok [] } ∧
      ∀ r ∈ getBalancesWithFallback f, r.paidAmount = 0) ∧
    (f.owedRes = Except.error msg →
      getBalancesWithFallback f =
        getBalancesWithFallback { f with owedRes := Except.ok [] } ∧
      ∀ r ∈ getBalancesWithFallback f, r.owedAmount = 0) ∧
    (f.sentRes = Except.error msg →
      getBalancesWithFallback f =
        getBalancesWithFallback { f with sentRes := Except.ok [] } ∧
      ∀ r ∈ getBalancesWithFallback f, r.sentAmount = 0) ∧
    (f.receivedRes = Except.error msg →
      getBalancesWithFallback f =
        getBalancesWithFallback { f with receivedRes := Except.ok [] } ∧
      ∀ r ∈ getBalancesWithFallback f, r.receivedAmount = 0) ∧
    (f.usersRes = Except.error msg →
      getBalancesWithFallback f =
        getBalancesWithFallback { f with usersRes := Except.ok [] } ∧
      getBalancesWithFallback f = []) := by
  refine ⟨?_, ?_, ?_, ?_, ?_⟩
  · intro h
    have h1 : orEmpty f.paidRes = ([] : List (Nat × ℚ)) := by
      rw [h]
      rfl
    constructor
    · rw [getBalancesWithFallback, getBalancesWithFallback, h1]
      rfl
    · intro r hr
      rw [getBalancesWithFallback, getBalancesCore] at hr
      obtain ⟨u, hu, hru⟩ := List.mem_map.mp hr
      rw [← hru]
      show lookupAmount (orEmpty f.paidRes) u.id = 0
      rw [h1]
      rfl
  · intro h
    have h1 : orEmpty f.owedRes = ([] : List (Nat × ℚ)) := by
      rw [h]
      rfl
    constructor
    · rw [getBalancesWithFallback, getBalancesWithFallback, h1]
      rfl
    · intro r hr
      rw [getBalancesWithFallback, getBalancesCore] at hr
      obtain ⟨u, hu, hru⟩ := List.mem_map.mp hr
      rw [← hru]
      show lookupAmount (orEmpty f.owedRes) u.id = 0
      rw [h1]
      rfl
  · intro h
    have h1 : orEmpty f.sentRes = ([] : List (Nat × ℚ)) := by
      rw [h]
      rfl
    constructor
    · rw [getBalancesWithFallback, getBalancesWithFallback, h1]
      rfl
    · intro r hr
      rw [getBalancesWithFallback, getBalancesCore] at hr
      obtain ⟨u, hu, hru⟩ := List.mem_map.mp hr
      rw [← hru]
      show lookupAmount (orEmpty f.sentRes) u.id = 0
      rw [h1]
      rfl
  · intro h
    have h1 : orEmpty f.receivedRes = ([] : List (Nat × ℚ)) := by
      rw [h]
      rfl
    constructor
    · rw [getBalancesWithFallback, getBalancesWithFallback, h1]
      rfl
    · intro r hr
      rw [getBalancesWithFallback, getBalancesCore] at hr
      obtain ⟨u, hu, hru⟩ := List.mem_map.mp hr
      rw [← hru]
      show lookupAmount (orEmpty f.receivedRes) u.id = 0
      rw [h1]
      rfl
  · intro h
    have h1 : orEmpty f.usersRes = ([] : List UserRow) := by
      rw [h]
      rfl
    constructor
    · rw [getBalancesWithFallback, getBalancesWithFallback, h1]
      rfl
    · rw [getBalancesWithFallback, h1]
      rfl

/-- C4 witness: a failed paid query next to real owed data produces a
balance list whose paid sums are all 0; with every one of the five queries
failed, each category is zeroed and the users fallback makes the output the
empty list. -/
theorem fallback_substitutes_zero_on_error_witness :
    (FetchResults.paidRes ⟨Except.error "database unavailable", Except.ok [(1, 30)],
      Except.ok [], Except.ok [], Except.ok [⟨1, "A", "X", "a", "v"⟩]⟩ =
        Except.error "database unavailable") ∧
    (∀ r ∈ getBalancesWithFallback ⟨Except.error "database unavailable",
      Except.ok [(1, 30)], Except.ok [], Except.ok [],
      Except.ok [⟨1, "A", "X", "a", "v"⟩]⟩, r.paidAmount = 0) ∧
    (∀ r ∈ getBalancesWithFallback ⟨Except.ok [(1, 30)],
      Except.error "database unavailable", Except.ok [], Except.ok [],
      Except.ok [⟨1, "A", "X", "a", "v"⟩]⟩, r.owedAmount = 0) ∧
    (∀ r ∈ getBalancesWithFallback ⟨Except.ok [], Except.ok [],
      Except.error "database unavailable", Except.ok [],
      Except.ok [⟨1, "A", "X", "a", "v"⟩]⟩, r.sentAmount = 0) ∧
    (∀ r ∈ getBalancesWithFallback ⟨Except.ok [], Except.ok [], Except.ok [],
      Except.error "database unavailable",
      Except.ok [⟨1, "A", "X", "a", "v"⟩]⟩, r.receivedAmount = 0) ∧
    getBalancesWithFallback ⟨Except.ok [(1, 30)], Except.ok [], Except.ok [],
      Except.ok [], Except.error "database unavailable"⟩ = [] :=
  ⟨rfl,
    (fallback_substitutes_zero_on_error _ "database unavailable").1 rfl |>.2,
    (fallback_substitutes_zero_on_error _ "database unavailable").2.1 rfl |>.2,
    (fallback_substitutes_zero_on_error _ "database unavailable").2.2.1 rfl |>.2,
    (fallback_substitutes_zero_on_error _ "database unavailable").2.2.2.1 rfl |>.2,
    (fallback_substitutes_zero_on_error _ "database unavailable").2.2.2.2 rfl |>.2⟩

set_option maxHeartbeats 2000000 in
/-- C4 counterexample: with the paid query failed (database unavailable)
but a real paid row `(1, 30)` upstream, `getBalances` does not propagate an
error: it returns a balance list computed from the defaulted-to-zero paid
sum, reporting user 1 at balance -30 instead of the true 0. -/
theorem fallback_returns_zeroed_list_not_error :
    getBalancesWithFallback ⟨Except.error "database unavailable", Except.ok [(1, 30)],
      Except.ok [], Except.ok [], Except.ok [⟨1, "A", "X", "a", "v"⟩]⟩ =
      [⟨1, "A", "X", "a", "v", 0, 30, 0, 0, -30⟩] ∧
    getBalancesWithFallback ⟨Except.ok [(1, 30)], Except.ok [(1, 30)],
      Except.ok [], Except.ok [], Except.ok [⟨1, "A", "X", "a", "v"⟩]⟩ =
      [⟨1, "A", "X", "a", "v", 30, 30, 0, 0, 0⟩] := by
  with_unfolding_all decide

set_option maxHeartbeats 2000000 in
/-- C3 (code bug): in a group whose active members are users 1 and 2, where
user 2 paid a 30 expense shared entirely by user 1 (so user 2 has no
expense share), `getGroupBalances` reports a balance row only for user 1:
the roster query joins through ExpenseShare, contradicting its own comment
"Get all users in group" and the spec's requirement that every member get a
row.  User 2's +30 credit disappears and the emitted balances sum to -30. -/
theorem group_balances_omit_shareless_member :
    isActiveMember ⟨[⟨1, "A", "X", "a", "v"⟩, ⟨2, "B", "Y", "b", "w"⟩],
      [⟨1, 1, "active"⟩, ⟨1, 2, "active"⟩], [⟨10, 1, 2, 30⟩], [⟨10, 1, 30⟩], []⟩ 1 2 =
      true ∧
    (getBalancesFromDb ⟨[⟨1, "A", "X", "a", "v"⟩, ⟨2, "B", "Y", "b", "w"⟩],
      [⟨1, 1, "active"⟩, ⟨1, 2, "active"⟩], [⟨10, 1, 2, 30⟩], [⟨10, 1, 30⟩], []⟩ 1).map
        UserBalanceRow.id = [1] ∧
    ((getBalancesFromDb ⟨[⟨1, "A", "X", "a", "v"⟩, ⟨2, "B", "Y", "b", "w"⟩],
      [⟨1, 1, "active"⟩, ⟨1, 2, "active"⟩], [⟨10, 1, 2, 30⟩], [⟨10, 1, 30⟩], []⟩ 1).map
        UserBalanceRow.balance).sum = -30 := by
  with_unfolding_all decide

end ExpenseStats
